import Mathlib

/-!
Verification development for the chat-driven orchestrator repository
(ctb-core / ctb-claude-cli crates).  Rust code is shallowly embedded:
pure functions become Lean functions, `f64` becomes `ℚ`, stateful code
becomes explicit state passing, and filesystem / process effects become
explicit oracle parameters.  Each definition mirrors one Rust source
function and keeps its name where Lean allows it.
-/

namespace CTB

/-- Rust `String` / `&str` is modelled as a list of characters. -/
abbrev Str := List Char

/-- Literal helper: build a `Str` from a Lean string literal. -/
def S (s : String) : Str := s.toList

/- ============== Rate Limiter (security.rs, token bucket) ==============
   `f64` is modelled by `ℚ`; `Instant` by a rational timestamp;
   `Duration` by a non-negative rational. -/

/-- One per-user token bucket (security.rs `Bucket`). -/
structure Bucket where
  tokens : ℚ
  last_update : ℚ
deriving Repr, DecidableEq

/-- security.rs `RateLimiter`; the `HashMap<UserId, Bucket>` is an
association list keyed by the user id. -/
structure RateLimiter where
  enabled : Bool
  max_tokens : ℚ
  refill_per_sec : ℚ
  buckets : List (Int × Bucket)
deriving Repr, DecidableEq

/-- `HashMap::get` on the bucket map. -/
def lookupBucket (bs : List (Int × Bucket)) (u : Int) : Option Bucket :=
  (bs.find? (fun p => p.1 == u)).map Prod.snd

/-- `HashMap` in-place update (replace the entry for `u`, or insert it). -/
def setBucket (bs : List (Int × Bucket)) (u : Int) (b : Bucket) :
    List (Int × Bucket) :=
  match bs with
  | [] => [(u, b)]
  | (k, v) :: rest =>
      if k == u then (k, b) :: rest else (k, v) :: setBucket rest u b

/-- security.rs `RateLimiter::new`: `refill_per_sec = max_tokens / window`
with the window clamped below by `1e-9` seconds. -/
def RateLimiter.new (enabled : Bool) (max_tokens : Nat) (window : ℚ) :
    RateLimiter :=
  let max_tokens_f : ℚ := max_tokens
  let window_secs : ℚ := max window (1 / 1000000000)
  { enabled := enabled
    max_tokens := max_tokens_f
    refill_per_sec := max_tokens_f / window_secs
    buckets := [] }

/-- security.rs `RateLimiter::check_at`.  Returns the updated limiter, the
allow flag, and the optional wait duration.  `Instant::duration_since`
saturates at zero, hence the `max ... 0` on `elapsed`. -/
def RateLimiter.check_at (rl : RateLimiter) (u : Int) (now : ℚ) :
    RateLimiter × Bool × Option ℚ :=
  if !rl.enabled then (rl, true, none)
  else
    let b0 : Bucket :=
      match lookupBucket rl.buckets u with
      | some b => b
      | none => { tokens := rl.max_tokens, last_update := now }
    let elapsed : ℚ := max (now - b0.last_update) 0
    let tokens1 : ℚ := min (b0.tokens + elapsed * rl.refill_per_sec) rl.max_tokens
    if 1 ≤ tokens1 then
      let b1 : Bucket := { tokens := tokens1 - 1, last_update := now }
      ({ rl with buckets := setBucket rl.buckets u b1 }, true, none)
    else
      let b1 : Bucket := { tokens := tokens1, last_update := now }
      let secs : ℚ := (1 - tokens1) / rl.refill_per_sec
      ({ rl with buckets := setBucket rl.buckets u b1 }, false, some (max secs 0))

/- ============== Command Safety (security.rs) ============== -/

/-- Single-quote character (written via its code point). -/
def squote : Char := Char.ofNat 39

/-- Double-quote character. -/
def dquote : Char := Char.ofNat 34

/-- Backslash character. -/
def bslash : Char := Char.ofNat 92

/-- security.rs `split_shell_words` loop body: walks the characters with
the `in_single` / `in_double` flags, the current word and the output
accumulator.  A trailing lone backslash consumes the (absent) next
character, i.e. the loop simply ends. -/
def split_shell_words_aux : List Char → Bool → Bool → Str → List Str → List Str
  | [], _ins, _ind, cur, out => if cur = [] then out else out ++ [cur]
  | ch :: rest, ins, ind, cur, out =>
    if ch = squote ∧ ind = false then
      split_shell_words_aux rest (!ins) ind cur out
    else if ch = dquote ∧ ins = false then
      split_shell_words_aux rest ins (!ind) cur out
    else if ch = bslash ∧ ins = false then
      match rest with
      | [] => if cur = [] then out else out ++ [cur]
      | next :: rest2 => split_shell_words_aux rest2 ins ind (cur ++ [next]) out
    else if ch.isWhitespace ∧ ins = false ∧ ind = false then
      if cur = [] then split_shell_words_aux rest ins ind cur out
      else split_shell_words_aux rest ins ind [] (out ++ [cur])
    else
      split_shell_words_aux rest ins ind (cur ++ [ch]) out

/-- security.rs `split_shell_words`. -/
def split_shell_words (s : Str) : List Str :=
  split_shell_words_aux s false false [] []

/-- Rust `str::to_lowercase` (per-character, sufficient for ASCII). -/
def toLowerStr (s : Str) : Str := s.map Char.toLower

/-- Rust `str::contains(&pat)`: substring containment. -/
def containsSubstr : Str → Str → Bool
  | hay, pat =>
    if List.isPrefixOf pat hay then true
    else
      match hay with
      | [] => false
      | _ :: t => containsSubstr t pat

/-- Does the word start with a dash (`arg.starts_with('-')`)? -/
def startsWithDash (w : Str) : Bool :=
  match w with
  | [] => false
  | c :: _ => c = '-'

/-- The closure in `check_command_safety` that finds the `rm` word. -/
def isRmWord (w : Str) : Bool := w == S ("rm") || w == S ("/bin/rm")

/-- The closure scanning `rm` arguments for the first non-flag argument
that fails the path policy. -/
def isBadRmArg (is_path_allowed : Str → Bool) (arg : Str) : Bool :=
  !startsWithDash arg && !is_path_allowed arg

/-- security.rs `check_command_safety`; the `PathPolicy` argument is
abstracted to its `is_path_allowed` oracle. -/
def check_command_safety (command : Str) (blocked_patterns : List Str)
    (is_path_allowed : Str → Bool) : Bool × Str :=
  match blocked_patterns.find?
      (fun pat => containsSubstr (toLowerStr command) (toLowerStr pat)) with
  | some pat => (false, S ("Blocked pattern: ") ++ pat)
  | none =>
    if split_shell_words command = [] then (true, []) else
    match (split_shell_words command).findIdx? isRmWord with
    | none => (true, [])
    | some rm_idx =>
      match ((split_shell_words command).drop (rm_idx + 1)).find?
          (isBadRmArg is_path_allowed) with
      | some arg => (false, S ("rm target outside allowed paths: ") ++ arg)
      | none => (true, [])

/- ============== Path policy (security.rs) ==============
   `std::path::Path` is modelled as its component list (`Component`);
   on the unix target a `Prefix` component never occurs in policy paths,
   but the constructor is kept for the archive sanitizer below.
   `fs::canonicalize` and `std::env::current_dir` are a filesystem
   oracle. -/

/-- `std::path::Component`. -/
inductive PComp where
  | prefixC : Str → PComp
  | rootDir : PComp
  | curDir : PComp
  | parentDir : PComp
  | normal : Str → PComp
deriving Repr, DecidableEq

/-- A path as its component list. -/
abbrev RPath := List PComp

/-- `Path::is_absolute` (unix: has a root). -/
def RPath.isAbsolute (p : RPath) : Bool :=
  match p with
  | PComp.rootDir :: _ => true
  | _ => false

/-- `Path::starts_with`: component-wise prefix. -/
def RPath.startsWith (p q : RPath) : Bool := List.isPrefixOf q p

/-- `PathBuf::join`: an absolute argument replaces the base. -/
def RPath.join (base p : RPath) : RPath :=
  if p.isAbsolute then p else base ++ p

/-- `PathBuf::push(component.as_os_str())` inside `normalize_path`:
pushing the root replaces the whole path. -/
def normPush (out : RPath) (c : PComp) : RPath :=
  match c with
  | PComp.rootDir => [PComp.rootDir]
  | c => out ++ [c]

/-- `PathBuf::pop`: drops the last component; a bare root or an empty
path is left unchanged. -/
def normPop (out : RPath) : RPath :=
  match out with
  | [] => []
  | [PComp.rootDir] => [PComp.rootDir]
  | _ => out.dropLast

/-- security.rs `normalize_path`: lexical normalization removing `.`
and resolving `..` without consulting the filesystem. -/
def normalize_path (p : RPath) : RPath :=
  p.foldl
    (fun out c =>
      match c with
      | PComp.curDir => out
      | PComp.parentDir => normPop out
      | other => normPush out other)
    []

/-- The filesystem oracle: `fs::canonicalize` (symlink-resolving, only
succeeds when the path exists) and `std::env::current_dir`. -/
structure FsEnv where
  canonicalize : RPath → Option RPath
  cwd : RPath

/-- security.rs `PathPolicy`. -/
structure PathPolicy where
  allowed_paths : List RPath
  temp_paths : List RPath
  home_dir : Option RPath
  base_dir : Option RPath

/-- security.rs `canonicalize_or_resolve`: prefer `fs::canonicalize`;
otherwise resolve relative paths against the base dir (or the current
dir) and normalize lexically.  (The `current_dir` error case is not
modelled: the oracle always yields a current directory.) -/
def canonicalize_or_resolve (env : FsEnv) (p : RPath) (base_dir : Option RPath) : RPath :=
  match env.canonicalize p with
  | some canon => canon
  | none =>
    let base := match base_dir with | some b => b | none => env.cwd
    let resolved := if p.isAbsolute then p else base ++ p
    normalize_path resolved

/-- security.rs `PathPolicy::resolve_user_path`: leading `~` expansion
(string test `raw == "~"` / `raw.starts_with("~/")`, equivalent at the
component level to a first component `~`), then resolution. -/
def PathPolicy.resolve_user_path (pol : PathPolicy) (env : FsEnv) (raw : RPath) : RPath :=
  let expanded :=
    match pol.home_dir, raw with
    | some home, PComp.normal t :: rest =>
        if t = S ("~") then home ++ rest else raw
    | _, _ => raw
  canonicalize_or_resolve env expanded pol.base_dir

/-- security.rs `PathPolicy::expand_tilde_path` (component-based). -/
def PathPolicy.expand_tilde_path (pol : PathPolicy) (p : RPath) : RPath :=
  match pol.home_dir with
  | none => p
  | some home =>
    match p with
    | PComp.normal t :: rest => if t = S ("~") then home ++ rest else p
    | _ => p

/-- security.rs `PathPolicy::is_path_allowed`. -/
def PathPolicy.is_path_allowed (pol : PathPolicy) (env : FsEnv) (raw : RPath) : Bool :=
  let resolved := pol.resolve_user_path env raw
  if pol.temp_paths.any (fun tmp => resolved.startsWith tmp) then true
  else
    pol.allowed_paths.any (fun allowed =>
      let allowed_resolved :=
        canonicalize_or_resolve env (pol.expand_tilde_path allowed) pol.base_dir
      resolved == allowed_resolved || resolved.startsWith allowed_resolved)

/- ============== Safe archive extraction (archive_security.rs) ==============
   Entries are modelled with their header data plus the number of bytes
   the reader actually yields (`io::copy` through `take(max+1)` copies
   `min actual (max+1)` bytes).  Filesystem writes (`create_dir_all`,
   `File::create`) are not modelled; the report records what would be
   written. -/

/-- errors.rs `Error` (the variants the extractor produces). -/
inductive CtbError where
  | security : Str → CtbError
  | external : Str → CtbError
  | config : Str → CtbError
  | io : CtbError
deriving Repr, DecidableEq

/-- Render a component for `Path::display` in error messages. -/
def PComp.render : PComp → Str
  | PComp.prefixC s => s
  | PComp.rootDir => S ("/")
  | PComp.curDir => S (".")
  | PComp.parentDir => S ("..")
  | PComp.normal s => s

/-- Join rendered components with `/`. -/
def intercalateSlash : List Str → Str
  | [] => []
  | [x] => x
  | x :: xs => x ++ S ("/") ++ intercalateSlash xs

/-- `Path::display` on the component model. -/
def renderPath (p : RPath) : Str :=
  match p with
  | PComp.rootDir :: rest => S ("/") ++ intercalateSlash (rest.map PComp.render)
  | _ => intercalateSlash (p.map PComp.render)

/-- archive_security.rs `sanitize_rel_path` loop: `.` components are
dropped, normal components pushed, `..` / root / prefix rejected. -/
def sanitize_rel_path_aux (orig : RPath) : RPath → List Str → Except CtbError (List Str)
  | [], out =>
      if out = [] then
        .error (.security (S ("archive contains empty path")))
      else .ok out
  | c :: rest, out =>
      match c with
      | PComp.curDir => sanitize_rel_path_aux orig rest out
      | PComp.normal s => sanitize_rel_path_aux orig rest (out ++ [s])
      | PComp.parentDir =>
          .error (.security (S ("archive contains path traversal: ") ++ renderPath orig))
      | PComp.rootDir =>
          .error (.security (S ("archive contains absolute path: ") ++ renderPath orig))
      | PComp.prefixC _ =>
          .error (.security (S ("archive contains absolute path: ") ++ renderPath orig))

/-- archive_security.rs `sanitize_rel_path`; the sanitized result is the
list of normal component names. -/
def sanitize_rel_path (p : RPath) : Except CtbError (List Str) :=
  sanitize_rel_path_aux p p []

/-- archive_security.rs `ExtractLimits`. -/
structure ExtractLimits where
  max_files : Nat
  max_total_bytes : Nat
  max_file_bytes : Nat
deriving Repr, DecidableEq

/-- archive_security.rs `ExtractLimits::default()`. -/
def ExtractLimits.default : ExtractLimits :=
  { max_files := 200
    max_total_bytes := 10485760
    max_file_bytes := 524288 }

/-- archive_security.rs `ExtractReport`. -/
structure ExtractReport where
  extracted_files : List (List Str)
  total_bytes : Nat
deriving Repr, DecidableEq

/-- `tar::EntryType`, collapsed to the distinctions the code makes. -/
inductive EntryType where
  | file | dir | symlink | hardlink | device | other
deriving Repr, DecidableEq

/-- `EntryType::is_file`. -/
def EntryType.is_file : EntryType → Bool
  | EntryType.file => true
  | _ => false

/-- `EntryType::is_dir`. -/
def EntryType.is_dir : EntryType → Bool
  | EntryType.dir => true
  | _ => false

/-- One tar entry: header entry type, header path, declared header size,
and the number of bytes the entry reader actually yields. -/
structure TarEntry where
  entry_type : EntryType
  path : RPath
  size : Nat
  actual : Nat
deriving Repr, DecidableEq

/-- archive_security.rs `safe_extract_tar_reader` entry loop.  `total`
uses plain `Nat` addition (`saturating_add` never saturates below
`2^64` totals, which the incremental checks keep us far under). -/
def safe_extract_tar_loop (limits : ExtractLimits) :
    List TarEntry → Nat → Nat → ExtractReport → Except CtbError ExtractReport
  | [], _, _, report => .ok report
  | e :: rest, file_count, total, report =>
    if (!e.entry_type.is_file && !e.entry_type.is_dir) = true then
      .error (.security
        (S ("archive contains non-file/non-dir entry: ") ++ renderPath e.path))
    else
      match sanitize_rel_path e.path with
      | .error err => .error err
      | .ok rel =>
        if e.entry_type.is_dir then
          safe_extract_tar_loop limits rest file_count total report
        else
          let file_count1 := file_count + 1
          if file_count1 > limits.max_files then
            .error (.security (S ("archive exceeds max_files limit")))
          else if e.size > limits.max_file_bytes then
            .error (.security (S ("archive file too large")))
          else if total + e.size > limits.max_total_bytes then
            .error (.security (S ("archive exceeds max_total_bytes limit")))
          else
            let copied := min e.actual (limits.max_file_bytes + 1)
            if copied > limits.max_file_bytes then
              .error (.security
                (S ("archive entry exceeds max_file_bytes while extracting")))
            else
              safe_extract_tar_loop limits rest file_count1 (total + copied)
                { extracted_files := report.extracted_files ++ [rel]
                  total_bytes := total + copied }

/-- archive_security.rs `safe_extract_tar_reader`. -/
def safe_extract_tar_reader (entries : List TarEntry) (limits : ExtractLimits) :
    Except CtbError ExtractReport :=
  safe_extract_tar_loop limits entries 0 0 { extracted_files := [], total_bytes := 0 }

/-- One zip entry: raw name, optional unix mode bits, the library's
name-based `is_dir`, declared size, and actual reader output. -/
structure ZipEntry where
  name : Str
  unix_mode : Option Nat
  is_dir : Bool
  size : Nat
  actual : Nat
deriving Repr, DecidableEq

/-- Rust `str::replace('\\', "/")` specialised to single characters. -/
def replaceChar (a b : Char) (s : Str) : Str :=
  s.map (fun ch => if ch = a then b else ch)

/-- Split on a separator character (keeping empty pieces). -/
def splitOnChar (c : Char) : Str → List Str
  | [] => [[]]
  | ch :: rest =>
      if ch = c then [] :: splitOnChar c rest
      else
        match splitOnChar c rest with
        | [] => [[ch]]
        | w :: ws => (ch :: w) :: ws

/-- `Path::new(&name).components()` for a unix path string: leading `/`
becomes the root, empty pieces vanish, `.` survives only as a leading
component, `..` parses as a parent component. -/
def parsePathStr (s : Str) : RPath :=
  let pieces := (splitOnChar '/' s).filter (fun w => w ≠ [])
  let comps := pieces.map (fun part =>
    if part = S (".") then PComp.curDir
    else if part = S ("..") then PComp.parentDir
    else PComp.normal part)
  if s.head? = some '/' then
    PComp.rootDir :: comps.filter (fun c => c ≠ PComp.curDir)
  else
    match comps with
    | [] => []
    | c :: rest => c :: rest.filter (fun c2 => c2 ≠ PComp.curDir)

/-- The unix-mode file-kind test in `safe_extract_zip`: masks with
`0o170000` (61440) and compares against the symlink kind `0o120000`
(40960). -/
def zipModeIsSymlink (mode : Option Nat) : Bool :=
  match mode with
  | some m => (m &&& 61440) = 40960
  | none => false

/-- archive_security.rs `safe_extract_zip` entry loop (entries visited
in index order; an empty name is skipped). -/
def safe_extract_zip_loop (limits : ExtractLimits) :
    List ZipEntry → Nat → Nat → ExtractReport → Except CtbError ExtractReport
  | [], _, _, report => .ok report
  | e :: rest, file_count, total, report =>
    let name := replaceChar bslash '/' e.name
    if name = [] then
      safe_extract_zip_loop limits rest file_count total report
    else if zipModeIsSymlink e.unix_mode then
      .error (.security (S ("archive contains symlink entry: ") ++ name))
    else
      match sanitize_rel_path (parsePathStr name) with
      | .error err => .error err
      | .ok rel =>
        if e.is_dir then
          safe_extract_zip_loop limits rest file_count total report
        else
          let file_count1 := file_count + 1
          if file_count1 > limits.max_files then
            .error (.security (S ("archive exceeds max_files limit")))
          else if e.size > limits.max_file_bytes then
            .error (.security (S ("archive file too large")))
          else if total + e.size > limits.max_total_bytes then
            .error (.security (S ("archive exceeds max_total_bytes limit")))
          else
            let copied := min e.actual (limits.max_file_bytes + 1)
            if copied > limits.max_file_bytes then
              .error (.security
                (S ("archive entry exceeds max_file_bytes while extracting")))
            else
              safe_extract_zip_loop limits rest file_count1 (total + copied)
                { extracted_files := report.extracted_files ++ [rel]
                  total_bytes := total + copied }

/-- archive_security.rs `safe_extract_zip`. -/
def safe_extract_zip (entries : List ZipEntry) (limits : ExtractLimits) :
    Except CtbError ExtractReport :=
  safe_extract_zip_loop limits entries 0 0 { extracted_files := [], total_bytes := 0 }

/-- An `Except` result that is a `Security` error. -/
def isSecurityError {α : Type} (res : Except CtbError α) : Prop :=
  ∃ msg, res = .error (CtbError.security msg)

/-- The normal component names of a path. -/
def normalNames (p : RPath) : List Str :=
  p.filterMap (fun c => match c with | PComp.normal s => some s | _ => none)

/- ============== Subprocess supervisor cancel (ctb-claude-cli lib.rs) ==============
   The tokio child process is modelled by an oracle recording what each
   process operation performed by `kill_child` would return, in program
   order; the supervisor state is the owned child handle plus the
   cancellation-token slot (both behind mutexes in the source, state
   passing here). -/

instance {ε α : Type} [DecidableEq ε] [DecidableEq α] :
    DecidableEq (Except ε α) := fun x y =>
  match x, y with
  | .ok a, .ok b =>
      if h : a = b then .isTrue (by rw [h])
      else .isFalse (fun hc => by cases hc; exact h rfl)
  | .error a, .error b =>
      if h : a = b then .isTrue (by rw [h])
      else .isFalse (fun hc => by cases hc; exact h rfl)
  | .ok _, .error _ => .isFalse (fun hc => by cases hc)
  | .error _, .ok _ => .isFalse (fun hc => by cases hc)

/-- A `CancellationToken`. -/
structure CancelToken where
  cancelled : Bool
deriving Repr, DecidableEq

/-- Oracle for one child's process operations: `try_wait` (before the
kill), `kill`, `wait`, and the second `try_wait` of the kill-error
path.  `Except Unit` stands for `io::Result`. -/
structure ChildOps where
  tryWait1 : Except Unit (Option Nat)
  kill : Except Unit Unit
  wait : Except Unit Nat
  tryWait2 : Except Unit (Option Nat)
deriving Repr, DecidableEq

/-- Supervisor state: `self.child` and `self.cancel`. -/
structure SupState where
  child : Option ChildOps
  cancel : Option CancelToken
deriving Repr, DecidableEq

/-- lib.rs `clear_cancel_token`. -/
def clear_cancel_token (st : SupState) : SupState := { st with cancel := none }

/-- lib.rs `ClaudeCliClient::kill_child`: clear the token, take the
child; an already-exited child is reaped; if `kill` fails while
`try_wait` still reports the child alive, the handle is reinstated and
an error returned. -/
def kill_child (st : SupState) : SupState × Except CtbError Unit :=
  let st1 := clear_cancel_token st
  match st1.child with
  | none => (st1, .ok ())
  | some child =>
    let st2 : SupState := { st1 with child := none }
    match child.tryWait1 with
    | .error _ => (st2, .error .io)
    | .ok (some _) => (st2, .ok ())
    | .ok none =>
      match child.kill with
      | .ok _ =>
        match child.wait with
        | .error _ => (st2, .error .io)
        | .ok _ => (st2, .ok ())
      | .error _ =>
        match child.tryWait2 with
        | .error _ => (st2, .error .io)
        | .ok none => ({ st2 with child := some child }, .error .io)
        | .ok (some _) => (st2, .ok ())

/-- lib.rs `ClaudeCliClient::cancel`: signal the token if present, then
`kill_child`. -/
def cancel (st : SupState) : SupState × Except CtbError Unit :=
  let st1 : SupState :=
    match st.cancel with
    | some tok => { st with cancel := some { tok with cancelled := true } }
    | none => st
  kill_child st1

/- ============== Cron expression engine (scheduler.rs) ==============
   `chrono::DateTime<Local>` is an instant; we model it as local seconds
   since the epoch (a fixed-offset local calendar: DST jumps are outside
   the model).  Calendar fields are computed from the instant with the
   standard civil-from-days algorithm, as chrono does. -/

/-- A local timestamp (seconds since the epoch, local wall clock). -/
structure DateTimeL where
  secs : Int
deriving Repr, DecidableEq

/-- Days-to-civil-date conversion (year, month, day). -/
def civilFromDays (z0 : Int) : Int × Nat × Nat :=
  let z := z0 + 719468
  let era : Int := z.ediv 146097
  let doe : Nat := (z - era * 146097).toNat
  let yoe : Nat := (doe - doe / 1460 + doe / 36524 - doe / 146096) / 365
  let y : Int := (yoe : Int) + era * 400
  let doy : Nat := doe - (365 * yoe + yoe / 4 - yoe / 100)
  let mp : Nat := (5 * doy + 2) / 153
  let d : Nat := doy - (153 * mp + 2) / 5 + 1
  let m : Nat := if mp < 10 then mp + 3 else mp - 9
  (if m ≤ 2 then y + 1 else y, m, d)

/-- Whole days since the epoch. -/
def DateTimeL.days (t : DateTimeL) : Int := t.secs.ediv 86400

/-- Seconds within the day. -/
def DateTimeL.secOfDay (t : DateTimeL) : Nat := (t.secs.emod 86400).toNat

/-- `dt.hour()`. -/
def DateTimeL.hour (t : DateTimeL) : Nat := t.secOfDay / 3600

/-- `dt.minute()`. -/
def DateTimeL.minute (t : DateTimeL) : Nat := t.secOfDay % 3600 / 60

/-- `dt.second()`. -/
def DateTimeL.second (t : DateTimeL) : Nat := t.secOfDay % 60

/-- `dt.month()`. -/
def DateTimeL.month (t : DateTimeL) : Nat := (civilFromDays t.days).2.1

/-- `dt.day()`. -/
def DateTimeL.day (t : DateTimeL) : Nat := (civilFromDays t.days).2.2

/-- `dt.weekday().num_days_from_sunday()` (1970-01-01 was a Thursday). -/
def DateTimeL.weekdayFromSunday (t : DateTimeL) : Nat :=
  ((t.days + 4).emod 7).toNat

/-- Rust `str::trim`. -/
def trimStr (s : Str) : Str :=
  ((s.dropWhile Char.isWhitespace).reverse.dropWhile Char.isWhitespace).reverse

/-- Rust `str::split_whitespace` (empty pieces dropped). -/
def splitWhitespaceAux : Str → Str → List Str
  | [], cur => if cur = [] then [] else [cur]
  | c :: rest, cur =>
      if c.isWhitespace then
        if cur = [] then splitWhitespaceAux rest []
        else cur :: splitWhitespaceAux rest []
      else splitWhitespaceAux rest (cur ++ [c])

/-- Rust `str::split_whitespace`. -/
def splitWhitespace (s : Str) : List Str := splitWhitespaceAux s []

/-- Rust `str::split_once(c)`. -/
def splitOnce : Str → Char → Option (Str × Str)
  | [], _ => none
  | ch :: rest, c =>
      if ch = c then some ([], rest)
      else
        match splitOnce rest c with
        | none => none
        | some (a, b) => some (ch :: a, b)

/-- Rust `str::parse::<u32>()` (digit strings; overflow not modelled,
cron fields are two digits). -/
def parseNat (s : Str) : Option Nat :=
  if s ≠ [] ∧ s.all Char.isDigit then
    some (s.foldl (fun acc c => acc * 10 + (c.toNat - 48)) 0)
  else none

/-- scheduler.rs `parse_u32`: numeric parse with the `7 ≡ 0`
day-of-week aliasing. -/
def parse_u32 (s : Str) (allow_7_as_0 : Bool) : Except CtbError Nat :=
  match parseNat s with
  | none => .error (.config [])
  | some v => .ok (if allow_7_as_0 ∧ v = 7 then 0 else v)

/-- One cron field (scheduler.rs `Field`). -/
structure Field where
  min : Nat
  max : Nat
  any : Bool
  allowed : List Bool
deriving Repr, DecidableEq

/-- scheduler.rs `Field::contains`. -/
def Field.contains (f : Field) (v : Nat) : Bool :=
  if v < f.min ∨ v > f.max then false
  else f.allowed.getD v false

/-- The `while v <= end` marking loop of `Field::parse`.  The source
loop advances `v` by `step ≥ 1` each round (a zero step was rejected
earlier, and the `if step == 0 break` is kept); the explicit fuel
`e + 1 - v` bounds the iterations so the recursion is structural. -/
def markRange (allowed : List Bool) (v e step fuel : Nat) : List Bool :=
  match fuel with
  | 0 => allowed
  | fuel + 1 =>
      if v ≤ e then
        let allowed1 := allowed.set v true
        if step = 0 then allowed1
        else markRange allowed1 (v + step) e step fuel
      else allowed

/-- Is every value in `[mn, mx]` allowed (the `any` recomputation at the
end of `Field::parse`)? -/
def allAllowed (allowed : List Bool) (mn mx : Nat) : Bool :=
  (List.range (mx + 1 - mn)).all (fun i => allowed.getD (mn + i) false)

/-- The comma-separated-part loop of scheduler.rs `Field::parse`. -/
def parsePartsAux (mn mx : Nat) (allow7 : Bool) :
    List Str → List Bool → Except CtbError (List Bool)
  | [], allowed => .ok allowed
  | part0 :: rest, allowed =>
    let part := trimStr part0
    if part = [] then parsePartsAux mn mx allow7 rest allowed
    else if part = S ("*") then
      parsePartsAux mn mx allow7 rest (markRange allowed mn mx 1 (mx + 1 - mn))
    else
      let stepRes : Except CtbError (Str × Option Nat) :=
        match splitOnce part '/' with
        | some (a, b) =>
            match parseNat (trimStr b) with
            | none => .error (.config [])
            | some st =>
                if st = 0 then .error (.config [])
                else .ok (trimStr a, some st)
        | none => .ok (part, none)
      match stepRes with
      | .error err => .error err
      | .ok (base, stepOpt) =>
        let rangeRes : Except CtbError (Nat × Nat) :=
          if base = S ("*") then .ok (mn, mx)
          else
            match splitOnce base '-' with
            | some (a, b) =>
                match parse_u32 (trimStr a) allow7 with
                | .error err => .error err
                | .ok av =>
                    match parse_u32 (trimStr b) allow7 with
                    | .error err => .error err
                    | .ok bv => .ok (av, bv)
            | none =>
                match parse_u32 (trimStr base) allow7 with
                | .error err => .error err
                | .ok av =>
                    if stepOpt.isSome then .ok (av, mx) else .ok (av, av)
        match rangeRes with
        | .error err => .error err
        | .ok (start0, end0) =>
          let start := max start0 mn
          let e := min end0 mx
          if start > e then .error (.config [])
          else
            let step := stepOpt.getD 1
            parsePartsAux mn mx allow7 rest
              (markRange allowed start e step (e + 1 - start))

/-- scheduler.rs `Field::parse`. -/
def Field.parse (raw0 : Str) (mn mx : Nat) (allow_7_as_0 : Bool) :
    Except CtbError Field :=
  let raw := trimStr raw0
  if raw = S ("*") then
    .ok { min := mn, max := mx, any := true
          allowed := List.replicate (mx + 1) true }
  else
    match parsePartsAux mn mx allow_7_as_0 (splitOnChar ',' raw)
        (List.replicate (mx + 1) false) with
    | .error err => .error err
    | .ok allowed =>
        .ok { min := mn, max := mx, any := allAllowed allowed mn mx
              allowed := allowed }

/-- scheduler.rs `CronExpr`. -/
structure CronExpr where
  min : Field
  hour : Field
  dom : Field
  mon : Field
  dow : Field
deriving Repr, DecidableEq

/-- scheduler.rs `CronExpr::parse` (5 whitespace-separated fields). -/
def CronExpr.parse (expr : Str) : Except CtbError CronExpr :=
  match splitWhitespace expr with
  | [p0, p1, p2, p3, p4] =>
      match Field.parse p0 0 59 false with
      | .error err => .error err
      | .ok fmin =>
        match Field.parse p1 0 23 false with
        | .error err => .error err
        | .ok fhour =>
          match Field.parse p2 1 31 false with
          | .error err => .error err
          | .ok fdom =>
            match Field.parse p3 1 12 false with
            | .error err => .error err
            | .ok fmon =>
              match Field.parse p4 0 6 true with
              | .error err => .error err
              | .ok fdow =>
                  .ok { min := fmin, hour := fhour, dom := fdom
                        mon := fmon, dow := fdow }
  | _ => .error (.config [])

/-- scheduler.rs `CronExpr::matches` with the standard cron day-or
semantics. -/
def CronExpr.matches (e : CronExpr) (dt : DateTimeL) : Bool :=
  if !e.min.contains dt.minute then false
  else if !e.hour.contains dt.hour then false
  else if !e.mon.contains dt.month then false
  else
    let dom_match := e.dom.contains dt.day
    let dow_match := e.dow.contains dt.weekdayFromSunday
    match e.dom.any, e.dow.any with
    | true, true => true
    | true, false => dow_match
    | false, true => dom_match
    | false, false => dom_match || dow_match

/-- The minute-by-minute search loop of `next_after`. -/
def searchLoop (e : CronExpr) : Nat → DateTimeL → Option DateTimeL
  | 0, _ => none
  | fuel + 1, t =>
      if e.matches t then some t
      else searchLoop e fuel (DateTimeL.mk (t.secs + 60))

/-- scheduler.rs `CronExpr::next_after`: start at `now + 1 minute` with
seconds (and nanoseconds) zeroed, search minute-by-minute with the
`366 * 24 * 60` iteration cap. -/
def CronExpr.next_after (e : CronExpr) (now : DateTimeL) : Option DateTimeL :=
  searchLoop e (366 * 24 * 60)
    (DateTimeL.mk ((now.secs + 60) - (now.secs + 60).emod 60))

/- ============== Formatting (formatting.rs) ==============
   Scanning loops with index arithmetic are written with an explicit
   fuel equal to the remaining input length (each round consumes at
   least one character), keeping every definition structurally
   recursive and kernel-evaluable. -/

/-- The NUL character used in placeholder markers. -/
def nulc : Char := Char.ofNat 0

/-- The backtick character. -/
def btick : Char := Char.ofNat 96

/-- `Nat` to decimal digits (for placeholder indices). -/
def natToStr (n : Nat) : Str := (Nat.repr n).toList

/-- Rust `str::replace` scanning loop (left-to-right, non-overlapping;
never called with an empty pattern). -/
def replaceAllFuel (pat rep : Str) : Nat → Str → Str
  | 0, s => s
  | _ + 1, [] => []
  | fuel + 1, c :: rest =>
      if pat.isPrefixOf (c :: rest) then
        rep ++ replaceAllFuel pat rep fuel ((c :: rest).drop pat.length)
      else c :: replaceAllFuel pat rep fuel rest

/-- Rust `str::replace`. -/
def replaceAll (s pat rep : Str) : Str := replaceAllFuel pat rep s.length s

/-- formatting.rs `escape_html`: the four sequential replacements. -/
def escape_html (text : Str) : Str :=
  replaceAll
    (replaceAll
      (replaceAll
        (replaceAll text (S ("&")) (S ("&amp;")))
        (S ("<")) (S ("&lt;")))
      (S (">")) (S ("&gt;")))
    (S ("\x22")) (S ("&quot;"))

/-- Rust `str::find(pat)` as a split: `s = before ++ pat ++ after` at
the first occurrence. -/
def findSub (s pat : Str) : Option (Str × Str) :=
  if pat.isPrefixOf s then some ([], s.drop pat.length)
  else
    match s with
    | [] => none
    | c :: t => (findSub t pat).map (fun p => (c :: p.1, p.2))

/-- formatting.rs `extract_code_blocks` loop. -/
def extract_code_blocks_fuel : Nat → Str → List Str → (Str × List Str)
  | 0, s, blocks => (s, blocks)
  | fuel + 1, s, blocks =>
      match findSub s (S ("```")) with
      | none => (s, blocks)
      | some (before, afterTicks) =>
          let afterLang := afterTicks.dropWhile (fun b => b.isAlphanum || b = '_')
          let afterNl :=
            match afterLang with
            | '\n' :: t => t
            | _ => afterLang
          match findSub afterNl (S ("```")) with
          | some (code, rest) =>
              let ph := nulc :: (S ("CODEBLOCK") ++ natToStr blocks.length) ++ [nulc]
              let out := extract_code_blocks_fuel fuel rest (blocks ++ [code])
              (before ++ ph ++ out.1, out.2)
          | none => (before ++ S ("```") ++ afterTicks, blocks)

/-- formatting.rs `extract_code_blocks`. -/
def extract_code_blocks (s : Str) : Str × List Str :=
  extract_code_blocks_fuel s.length s []

/-- formatting.rs `extract_inline_codes` loop. -/
def extract_inline_codes_fuel : Nat → Str → List Str → (Str × List Str)
  | 0, s, codes => (s, codes)
  | fuel + 1, s, codes =>
      match splitOnce s btick with
      | none => (s, codes)
      | some (before, rest) =>
          match splitOnce rest btick with
          | some (code, rest2) =>
              let ph := nulc :: (S ("INLINECODE") ++ natToStr codes.length) ++ [nulc]
              let out := extract_inline_codes_fuel fuel rest2 (codes ++ [code])
              (before ++ ph ++ out.1, out.2)
          | none => (before ++ btick :: rest, codes)

/-- formatting.rs `extract_inline_codes`. -/
def extract_inline_codes (s : Str) : Str × List Str :=
  extract_inline_codes_fuel s.length s []

/-- formatting.rs `convert_header_line` (`#` prefix of length ≤ 6
followed by a space becomes a bold line). -/
def convert_header_line (line : Str) : Str :=
  let i := min (line.takeWhile (fun c => c = '#')).length 6
  if i = 0 then line
  else if i < line.length ∧ line.getD i ' ' = ' ' then
    S ("<b>") ++ line.drop (i + 1) ++ S ("</b>")
  else line

/-- formatting.rs `replace_delimited` loop (two-character emphasis
delimiters such as `**` and `__`). -/
def replace_delimited_fuel (delim opn cls : Str) : Nat → Str → Str
  | 0, s => s
  | fuel + 1, s =>
      match findSub s delim with
      | none => s
      | some (before, after) =>
          match findSub after delim with
          | none => s
          | some (content, rest) =>
              before ++ opn ++ content ++ cls ++
                replace_delimited_fuel delim opn cls fuel rest

/-- formatting.rs `replace_delimited`. -/
def replace_delimited (text delim opn cls : Str) : Str :=
  replace_delimited_fuel delim opn cls text.length text

/-- The inner closing-delimiter scan of `replace_single_delim`: from
index `j`, stop at end of line or find a non-doubled delimiter. -/
def rsdScan (chars : List Char) (delim : Char) : Nat → Nat → Option Nat
  | 0, _ => none
  | fuel + 1, j =>
      if j < chars.length then
        if chars.getD j ' ' = '\n' then none
        else if chars.getD j ' ' = delim ∧
            ¬(j > 0 ∧ chars.getD (j - 1) ' ' = delim) ∧
            ¬(j + 1 < chars.length ∧ chars.getD (j + 1) ' ' = delim) then
          some j
        else rsdScan chars delim fuel (j + 1)
      else none

/-- formatting.rs `replace_single_delim` outer loop over the char
vector (doubled delimiters are skipped; unmatched delimiters are kept
verbatim). -/
def rsdLoop (chars : List Char) (delim : Char) (opn cls : Str) :
    Nat → Nat → Str
  | 0, _ => []
  | fuel + 1, i =>
      if i < chars.length then
        let c := chars.getD i ' '
        if c = delim then
          if (i > 0 ∧ chars.getD (i - 1) ' ' = delim) ∨
              (i + 1 < chars.length ∧ chars.getD (i + 1) ' ' = delim) then
            delim :: rsdLoop chars delim opn cls fuel (i + 1)
          else
            match rsdScan chars delim (chars.length - (i + 1)) (i + 1) with
            | some j =>
                opn ++ ((chars.drop (i + 1)).take (j - (i + 1))) ++ cls ++
                  rsdLoop chars delim opn cls fuel (j + 1)
            | none => delim :: rsdLoop chars delim opn cls fuel (i + 1)
        else c :: rsdLoop chars delim opn cls fuel (i + 1)
      else []

/-- formatting.rs `replace_single_delim`. -/
def replace_single_delim (text : Str) (delim : Char) (opn cls : Str) : Str :=
  rsdLoop text delim opn cls text.length 0

/-- Join strings with newlines (`Vec::join("\n")`). -/
def joinNL : List Str → Str
  | [] => []
  | [x] => x
  | x :: xs => x ++ '\n' :: joinNL xs

/-- formatting.rs `convert_blockquotes` line loop: groups consecutive
`&gt; `-prefixed lines into one blockquote, removing `#` from quoted
content. -/
def cbLoop : List Str → List Str → Bool → List Str
  | [], block, inb =>
      if inb then [S ("<blockquote>") ++ joinNL block ++ S ("</blockquote>")]
      else []
  | line :: rest, block, inb =>
      if (S ("&gt; ")).isPrefixOf line ∨ line = S ("&gt;") then
        let item :=
          if line = S ("&gt;") then ([] : Str)
          else (line.drop 5).filter (fun c => c ≠ '#')
        cbLoop rest (block ++ [item]) true
      else
        if inb then
          (S ("<blockquote>") ++ joinNL block ++ S ("</blockquote>")) ::
            line :: cbLoop rest [] false
        else line :: cbLoop rest [] false

/-- formatting.rs `convert_blockquotes`. -/
def convert_blockquotes (text : Str) : Str :=
  joinNL (cbLoop (splitOnChar '\n' text) [] false)

/-- Rust `str::lines()`: split on `\n`, drop one trailing empty piece,
strip one trailing `\r` per line. -/
def rustLines (s : Str) : List Str :=
  let parts := splitOnChar '\n' s
  let parts := if parts.getLast? = some [] then parts.dropLast else parts
  parts.map (fun l => if l.getLast? = some '\r' then l.dropLast else l)

/-- The bullet-normalization line map (`- ` / `* ` become `• `). -/
def bullet_line (line : Str) : Str :=
  if (S ("- ")).isPrefixOf line then S ("• ") ++ line.drop 2
  else if (S ("* ")).isPrefixOf line then S ("• ") ++ line.drop 2
  else line

/-- The horizontal-rule filter predicate: a trimmed line of length ≥ 3
made only of `-` and `*` is removed. -/
def is_hr_line (line : Str) : Bool :=
  let t := trimStr line
  decide (t.length ≥ 3) && t.all (fun c => c = '-' || c = '*')

/-- The `\[([^\]]+)\]\(([^)]+)\)` link rewriting (leftmost-first, as
`Regex::replace_all`). -/
def linkLoop : Nat → Str → Str
  | 0, s => s
  | fuel + 1, s =>
      match s with
      | [] => []
      | c :: rest =>
          if c = '[' then
            match splitOnce rest ']' with
            | some (txt, after) =>
                if txt ≠ [] then
                  match after with
                  | '(' :: after2 =>
                      match splitOnce after2 ')' with
                      | some (url, after3) =>
                          if url ≠ [] then
                            S ("<a href=\x22") ++ url ++ S ("\x22>") ++ txt ++
                              S ("</a>") ++ linkLoop fuel after3
                          else '[' :: linkLoop fuel rest
                      | none => '[' :: linkLoop fuel rest
                  | _ => '[' :: linkLoop fuel rest
                else '[' :: linkLoop fuel rest
            | none => '[' :: linkLoop fuel rest
          else c :: linkLoop fuel rest

/-- Link conversion over the whole text. -/
def convert_links (s : Str) : Str := linkLoop s.length s

/-- The placeholder-restoration loops: placeholder `i` becomes the
wrapped, HTML-escaped extracted content. -/
def restoreLoop (wrapO wrapC phName : Str) : List Str → Nat → Str → Str
  | [], _, text => text
  | code :: rest, i, text =>
      restoreLoop wrapO wrapC phName rest (i + 1)
        (replaceAll text (nulc :: (phName ++ natToStr i) ++ [nulc])
          (wrapO ++ escape_html code ++ wrapC))

/-- The `while text.contains("\n\n\n")` collapse loop; each replacement
pass strictly shortens the text, so `length` passes suffice. -/
def collapseNewlinesFuel : Nat → Str → Str
  | 0, s => s
  | fuel + 1, s =>
      if containsSubstr s (S ("\n\n\n")) then
        collapseNewlinesFuel fuel (replaceAll s (S ("\n\n\n")) (S ("\n\n")))
      else s

/-- Collapse three or more consecutive newlines to two. -/
def collapse_newlines (s : Str) : Str := collapseNewlinesFuel s.length s

/-- The escape / line-transform / blockquote / bullet / rule / link
passes of `convert_markdown_to_html` (steps 3–8), applied to the text
with code placeholders already extracted. -/
def convert_text_passes (text2 : Str) : Str :=
  let text3 := escape_html text2
  let lines := (splitOnChar '\n' text3).map (fun line =>
    let l1 := convert_header_line line
    let l2 := replace_delimited l1 (S ("**")) (S ("<b>")) (S ("</b>"))
    let l3 := replace_delimited l2 (S ("__")) (S ("<b>")) (S ("</b>"))
    let l4 := replace_single_delim l3 '_' (S ("<i>")) (S ("</i>"))
    replace_single_delim l4 '*' (S ("<b>")) (S ("</b>")))
  let text4 := joinNL lines
  let text5 := convert_blockquotes text4
  let text6 := joinNL ((rustLines text5).map bullet_line)
  let text7 := joinNL ((rustLines text6).filter (fun l => !is_hr_line l))
  convert_links text7

/-- formatting.rs `convert_markdown_to_html`: extract code, run the
text passes, restore placeholders, collapse newlines. -/
def convert_markdown_to_html (input : Str) : Str :=
  collapse_newlines
    (restoreLoop (S ("<code>")) (S ("</code>")) (S ("INLINECODE"))
      (extract_inline_codes (extract_code_blocks input).1).2 0
      (restoreLoop (S ("<pre>")) (S ("</pre>")) (S ("CODEBLOCK"))
        (extract_code_blocks input).2 0
        (convert_text_passes
          (extract_inline_codes (extract_code_blocks input).1).1)))

/- ============== Streaming UI state machine (streaming.rs) ==============
   The messaging port is a deterministic allocator: `send_html` returns
   the next message id and the performed operations are recorded as a
   trace.  `Instant::now()` / `Local::now()` become explicit `now` /
   `wallclock` arguments. -/

/-- messaging/types.rs `InlineButton`. -/
structure InlineButton where
  label : Str
  callback_data : Str
deriving Repr, DecidableEq

/-- messaging/types.rs `InlineKeyboard`. -/
structure InlineKeyboard where
  buttons : List InlineButton
deriving Repr, DecidableEq

/-- messaging/types.rs `InlineKeyboard::one_per_row`: one button per
option, labels truncated to `max_label_len`, callback data
`askuser:<request_id>:<idx>`. -/
def InlineKeyboard.one_per_row (request_id : Str) (options : List Str)
    (max_label_len : Nat) : InlineKeyboard :=
  { buttons := options.enum.map (fun p =>
      let label :=
        if p.2.length > max_label_len then p.2.take max_label_len ++ S ("...")
        else p.2
      { label := label
        callback_data :=
          S ("askuser:") ++ request_id ++ ':' :: natToStr p.1 }) }

/-- One recorded messaging-port operation. -/
inductive MsgOp where
  | sendHtml : Int → Str → MsgOp
  | editHtml : Nat → Str → MsgOp
  | deleteMessage : Nat → MsgOp
  | setReaction : Nat → Str → MsgOp
  | sendInlineKeyboard : Int → Str → InlineKeyboard → MsgOp
deriving Repr, DecidableEq

/-- The subset of config.rs `Config` the embedded code reads. -/
structure Config where
  telegram_message_limit : Nat
  telegram_safe_limit : Nat
  streaming_throttle : Int
  button_label_max_length : Nat
  blocked_patterns : List Str
  temp_paths : List Str
  delete_thinking_messages : Bool
  delete_tool_messages : Bool
deriving Repr, DecidableEq

/-- Generic association-list get (the `HashMap` reads). -/
def alistGet {α : Type} (l : List (Nat × α)) (k : Nat) : Option α :=
  (l.find? (fun p => p.1 == k)).map Prod.snd

/-- Generic association-list insert/replace (the `HashMap` writes). -/
def alistSet {α : Type} (l : List (Nat × α)) (k : Nat) (v : α) :
    List (Nat × α) :=
  match l with
  | [] => [(k, v)]
  | (k2, v2) :: rest =>
      if k2 == k then (k2, v) :: rest else (k2, v2) :: alistSet rest k v

/-- Generic association-list removal (the `HashMap::remove`). -/
def alistRemove {α : Type} (l : List (Nat × α)) (k : Nat) : List (Nat × α) :=
  l.filter (fun p => p.1 != k)

/-- streaming.rs `StatusType`. -/
inductive StatusType where
  | thinking | tool | text | segmentEnd | done
deriving Repr, DecidableEq

/-- streaming.rs `StreamingState` plus the allocator for outbound
message ids. -/
structure StreamingState where
  chat_id : Int
  text_messages : List (Nat × Nat)
  thinking_messages : List Nat
  tool_messages : List Nat
  last_edit_times : List (Nat × Int)
  last_content : List (Nat × Str)
  progress_message : Option Nat
  start_time : Option Int
  start_wallclock : Str
  frame_index : Nat
  next_msg_id : Nat
deriving Repr, DecidableEq

/-- streaming.rs `StreamingState::new`. -/
def StreamingState.new (chat_id : Int) : StreamingState :=
  { chat_id := chat_id
    text_messages := []
    thinking_messages := []
    tool_messages := []
    last_edit_times := []
    last_content := []
    progress_message := none
    start_time := none
    start_wallclock := []
    frame_index := 0
    next_msg_id := 1 }

/-- streaming.rs `truncate_with_ellipsis`. -/
def truncate_with_ellipsis (s : Str) (max_len : Nat) : Str :=
  if s.length ≤ max_len then s else s.take max_len ++ S ("...")

/-- streaming.rs `split_text` loop. -/
def split_text_aux (maxLen : Nat) : Str → Str → List Str
  | [], cur => if cur = [] then [] else [cur]
  | ch :: rest, cur =>
      if cur.length ≥ maxLen then cur :: split_text_aux maxLen rest [ch]
      else split_text_aux maxLen rest (cur ++ [ch])

/-- streaming.rs `split_text`. -/
def split_text (s : Str) (maxLen : Nat) : List Str := split_text_aux maxLen s []

/-- Two-digit zero padding (`{seconds:02}`). -/
def pad2 (n : Nat) : Str := if n < 10 then '0' :: natToStr n else natToStr n

/-- streaming.rs `format_elapsed` (`m:ss`; instants are nanoseconds,
`as_secs` truncates). -/
def format_elapsed (start now : Int) : Str :=
  let elapsed := ((now - start).ediv 1000000000).toNat
  natToStr (elapsed / 60) ++ ':' :: pad2 (elapsed % 60)

/-- streaming.rs `SPINNER_FRAMES`. -/
def SPINNER_FRAMES : List Str :=
  [S ("⠋"), S ("⠙"), S ("⠹"), S ("⠸"), S ("⠼"),
   S ("⠴"), S ("⠦"), S ("⠧"), S ("⠇"), S ("⠏")]

/-- streaming.rs `recreate_progress`: delete the old spinner message
(best effort) and send a fresh one below the latest content. -/
def recreate_progress (st : StreamingState) (now : Int) :
    StreamingState × List MsgOp :=
  match st.start_time with
  | none => (st, [])
  | some start =>
      let delOps :=
        match st.progress_message with
        | some old => [MsgOp.deleteMessage old]
        | none => []
      let spinner := SPINNER_FRAMES.getD (st.frame_index % SPINNER_FRAMES.length) []
      let text := spinner ++ S (" Working... (") ++ format_elapsed start now ++ S (")")
      let msg := st.next_msg_id
      ({ st with progress_message := some msg, next_msg_id := msg + 1 },
        delOps ++ [MsgOp.sendHtml st.chat_id text])

/-- streaming.rs `handle_text_stream`. -/
def handle_text_stream (cfg : Config) (st : StreamingState) (segment_id : Nat)
    (content : Str) (now : Int) : StreamingState × List MsgOp :=
  let last_edit := alistGet st.last_edit_times segment_id
  if (alistGet st.text_messages segment_id).isNone then
    let display := truncate_with_ellipsis content cfg.telegram_safe_limit
    let formatted := convert_markdown_to_html display
    let msg := st.next_msg_id
    let st1 := { st with
      text_messages := alistSet st.text_messages segment_id msg
      last_content := alistSet st.last_content segment_id formatted
      last_edit_times := alistSet st.last_edit_times segment_id now
      next_msg_id := msg + 1 }
    let pr := recreate_progress st1 now
    (pr.1, MsgOp.sendHtml st.chat_id formatted :: pr.2)
  else
    if (match last_edit with
        | some last => decide (now - last ≤ cfg.streaming_throttle)
        | none => false) = true then (st, [])
    else
      let msg := (alistGet st.text_messages segment_id).getD 0
      let display := truncate_with_ellipsis content cfg.telegram_safe_limit
      let formatted := convert_markdown_to_html display
      if alistGet st.last_content segment_id = some formatted then (st, [])
      else
        ({ st with
            last_content := alistSet st.last_content segment_id formatted
            last_edit_times := alistSet st.last_edit_times segment_id now },
          [MsgOp.editHtml msg formatted])

/-- streaming.rs `handle_segment_end`. -/
def handle_segment_end (cfg : Config) (st : StreamingState) (segment_id : Nat)
    (content : Str) (now : Int) : StreamingState × List MsgOp :=
  if content = [] then (st, [])
  else if (alistGet st.text_messages segment_id).isNone then
    let formatted := convert_markdown_to_html content
    let msg := st.next_msg_id
    let st1 := { st with
      text_messages := alistSet st.text_messages segment_id msg
      next_msg_id := msg + 1 }
    let pr := recreate_progress st1 now
    (pr.1, MsgOp.sendHtml st.chat_id formatted :: pr.2)
  else
    let msg := (alistGet st.text_messages segment_id).getD 0
    let formatted := convert_markdown_to_html content
    if alistGet st.last_content segment_id = some formatted then (st, [])
    else if formatted.length ≤ cfg.telegram_message_limit then
      ({ st with last_content := alistSet st.last_content segment_id formatted },
        [MsgOp.editHtml msg formatted])
    else
      let st1 := { st with
        text_messages := alistRemove st.text_messages segment_id
        last_content := alistRemove st.last_content segment_id
        last_edit_times := alistRemove st.last_edit_times segment_id }
      let chunks := split_text content cfg.telegram_safe_limit
      let sendOps := chunks.map
        (fun chunk => MsgOp.sendHtml st.chat_id (convert_markdown_to_html chunk))
      let st2 := { st1 with next_msg_id := st1.next_msg_id + chunks.length }
      let pr := recreate_progress st2 now
      (pr.1, MsgOp.deleteMessage msg :: sendOps ++ pr.2)

/-- `max_by_key` over the segment map (unique keys; the last maximal
entry, as in Rust). -/
def maxSegMsg (l : List (Nat × Nat)) : Option (Nat × Nat) :=
  l.foldl
    (fun acc p =>
      match acc with
      | none => some p
      | some q => if p.1 ≥ q.1 then some p else some q)
    none

/-- streaming.rs `handle_done`. -/
def handle_done (cfg : Config) (st : StreamingState) (now : Int)
    (wallclock_now : Str) : StreamingState × List MsgOp :=
  let ops1 :=
    match st.start_time, st.progress_message with
    | some start, some pm =>
        [MsgOp.editHtml pm
          (S ("✅ Completed\x0a⏰ ") ++ st.start_wallclock ++ S (" → ") ++
            wallclock_now ++ S (" (") ++ format_elapsed start now ++ S (")"))]
    | _, _ => []
  let ops2 :=
    if cfg.delete_thinking_messages then
      st.thinking_messages.map MsgOp.deleteMessage
    else []
  let ops3 :=
    if cfg.delete_tool_messages then st.tool_messages.map MsgOp.deleteMessage
    else []
  let ops4 :=
    match maxSegMsg st.text_messages with
    | some p => [MsgOp.setReaction p.2 (S ("👍"))]
    | none => []
  (st, ops1 ++ ops2 ++ ops3 ++ ops4)

/-- streaming.rs `StreamingState::on_status_at`. -/
def on_status_at (cfg : Config) (st : StreamingState) (status_type : StatusType)
    (content : Str) (segment_id : Option Nat) (now : Int) (wallclock_now : Str) :
    StreamingState × List MsgOp :=
  let init :=
    if st.start_time.isNone then
      let st1 := { st with start_time := some now, start_wallclock := wallclock_now }
      recreate_progress st1 now
    else (st, [])
  let st := init.1
  let ops0 := init.2
  match status_type with
  | StatusType.thinking =>
      let preview := truncate_with_ellipsis content 500
      let msg := st.next_msg_id
      let st1 := { st with
        thinking_messages := st.thinking_messages ++ [msg]
        next_msg_id := msg + 1 }
      let pr := recreate_progress st1 now
      (pr.1, ops0 ++
        MsgOp.sendHtml st.chat_id
          (S ("🧠 <i>") ++ escape_html preview ++ S ("</i>")) :: pr.2)
  | StatusType.tool =>
      let msg := st.next_msg_id
      let st1 := { st with
        tool_messages := st.tool_messages ++ [msg]
        next_msg_id := msg + 1 }
      let pr := recreate_progress st1 now
      (pr.1, ops0 ++ MsgOp.sendHtml st.chat_id content :: pr.2)
  | StatusType.text =>
      match segment_id with
      | none => (st, ops0)
      | some seg =>
          let r := handle_text_stream cfg st seg content now
          (r.1, ops0 ++ r.2)
  | StatusType.segmentEnd =>
      match segment_id with
      | none => (st, ops0)
      | some seg =>
          let r := handle_segment_end cfg st seg content now
          (r.1, ops0 ++ r.2)
  | StatusType.done =>
      let r := handle_done cfg st now wallclock_now
      (r.1, ops0 ++ r.2)

/-- Does the operation carry HTML longer than the limit into an
`edit_html`? -/
def opIsOverlongEdit (limit : Nat) (op : MsgOp) : Bool :=
  match op with
  | MsgOp.editHtml _ h => decide (h.length > limit)
  | _ => false

/- ============== Session event pipeline (session.rs) ==============
   serde_json values become an inductive; the `/tmp` directory becomes
   an explicit listing (filename ↦ parsed content, `none` when the file
   is unreadable or unparsable); the messenger and the model supervisor
   become recorded actions; the path policy is abstracted to its
   `is_path_allowed` oracle as in `check_command_safety`. -/

/-- serde_json `Value` (numbers as integers; floats do not occur in the
embedded paths). -/
inductive Json where
  | null : Json
  | bool : Bool → Json
  | num : Int → Json
  | str : Str → Json
  | arr : List Json → Json
  | obj : List (Str × Json) → Json

/-- serde_json `Value::get(key)` on objects. -/
def Json.get (v : Json) (k : Str) : Option Json :=
  match v with
  | Json.obj fields => (fields.find? (fun p => p.1 == k)).map Prod.snd
  | _ => none

/-- serde_json `Value::as_str`. -/
def Json.as_str : Json → Option Str
  | Json.str s => some s
  | _ => none

/-- serde_json `Value::as_i64`. -/
def Json.as_i64 : Json → Option Int
  | Json.num n => some n
  | _ => none

/-- serde_json `Value::as_array`. -/
def Json.as_array : Json → Option (List Json)
  | Json.arr xs => some xs
  | _ => none

/-- Insert-or-replace a key in a JSON object field list. -/
def objSet (k : Str) (v : Json) : List (Str × Json) → List (Str × Json)
  | [] => [(k, v)]
  | (k2, v2) :: rest =>
      if k2 == k then (k2, v) :: rest else (k2, v2) :: objSet k v rest

/-- serde_json index assignment `v[key] = x` (only reached on objects
here). -/
def Json.setKey (j : Json) (k : Str) (v : Json) : Json :=
  match j with
  | Json.obj fields => Json.obj (objSet k v fields)
  | other => other

/-- Rust `str::eq_ignore_ascii_case` (Lean's `Char.toLower` lowers
exactly the ASCII uppercase range). -/
def eqIgnoreAsciiCase (a b : Str) : Bool := toLowerStr a == toLowerStr b

/-- Rust `str::parse::<i64>()`: optional sign, all digits, i64 range. -/
def parseI64 (s : Str) : Option Int :=
  let core : Option Int :=
    match s with
    | '-' :: rest => (parseNat rest).map (fun m => -(m : Int))
    | '+' :: rest => (parseNat rest).map (fun m => (m : Int))
    | _ => (parseNat s).map (fun m => (m : Int))
  match core with
  | some x =>
      if -9223372036854775808 ≤ x ∧ x ≤ 9223372036854775807 then some x
      else none
  | none => none

/-- The chat-id field of an ask-user request file: an integer directly,
or a numeric string, defaulting to 0 (`unwrap_or_default`). -/
def jsonChatId (v : Json) : Int :=
  match Json.get v (S ("chat_id")) with
  | none => 0
  | some c =>
      match c.as_i64 with
      | some m => m
      | none => ((c.as_str).bind parseI64).getD 0

/-- The `question` field, defaulting to `Please choose:`. -/
def askQuestion (v : Json) : Str :=
  ((Json.get v (S ("question"))).bind Json.as_str).getD (S ("Please choose:"))

/-- The `request_id` field, defaulting to the empty string. -/
def askRequestId (v : Json) : Str :=
  ((Json.get v (S ("request_id"))).bind Json.as_str).getD []

/-- The `options` array restricted to its string elements. -/
def askOptions (v : Json) : List Str :=
  match (Json.get v (S ("options"))).bind Json.as_array with
  | some xs => xs.filterMap Json.as_str
  | none => []

/-- Does `check_pending_ask_user_requests` act on this directory entry:
name matches `ask-user-*.json`, content parses, status is `pending`,
the chat matches, and request id and options are non-empty. -/
def askEligible (chat : Int) (e : Str × Option Json) : Bool :=
  List.isPrefixOf (S ("ask-user-")) e.1 &&
  List.isSuffixOf (S (".json")) e.1 &&
  (match e.2 with
   | none => false
   | some v =>
      ((Json.get v (S ("status"))).bind Json.as_str == some (S ("pending"))) &&
      (jsonChatId v == chat) &&
      !(askRequestId v == []) &&
      !(askOptions v == []))

/-- The inline-keyboard send recorded for one eligible request file. -/
def askKeyboardOp (cfg : Config) (chat : Int) (v : Json) : MsgOp :=
  MsgOp.sendInlineKeyboard chat (S ("❓ ") ++ escape_html (askQuestion v))
    (InlineKeyboard.one_per_row (askRequestId v) (askOptions v)
      cfg.button_label_max_length)

/-- session.rs `check_pending_ask_user_requests`, one directory entry at
a time: eligible entries get a keyboard send, their file is rewritten
with status `sent`, and `any_sent` is reported. -/
def check_pending_aux (cfg : Config) (chat : Int) :
    List (Str × Option Json) → List (Str × Option Json) × List MsgOp × Bool
  | [] => ([], [], false)
  | e :: rest =>
      let r := check_pending_aux cfg chat rest
      if askEligible chat e then
        match e.2 with
        | some v =>
            ((e.1, some (Json.setKey v (S ("status")) (Json.str (S ("sent"))))) ::
                r.1,
              askKeyboardOp cfg chat v :: r.2.1, true)
        | none => (e :: r.1, r.2.1, r.2.2)
      else (e :: r.1, r.2.1, r.2.2)

/-- session.rs `check_pending_ask_user_requests` over the explicit
`/tmp` listing. -/
def check_pending_ask_user_requests (cfg : Config) (chat : Int)
    (fs : List (Str × Option Json)) :
    List (Str × Option Json) × List MsgOp × Bool :=
  check_pending_aux cfg chat fs

/-- session.rs `is_ask_user_tool`. -/
def is_ask_user_tool (tool_name : Str) : Bool :=
  List.isPrefixOf (S ("mcp__ask-user")) tool_name ||
  tool_name == S ("AskUserQuestion")

/-- formatting.rs `shorten_path`: the last two non-empty `/`-separated
components (or the last one, or `file`). -/
def shorten_path (path : Str) : Str :=
  let parts := (splitOnChar '/' path).filter (fun p => !p.isEmpty)
  if parts.length ≥ 2 then
    parts.getD (parts.length - 2) [] ++ '/' :: parts.getD (parts.length - 1) []
  else (parts.getLast?).getD (S ("file"))

/-- formatting.rs `truncate_one_line`: newlines to spaces, trim, cap at
`max_len` with an ellipsis. -/
def truncate_one_line (text : Str) (max_len : Nat) : Str :=
  let cleaned := trimStr (replaceChar '\n' ' ' text)
  if cleaned.length ≤ max_len then cleaned
  else cleaned.take max_len ++ S ("...")

/-- formatting.rs `code`: wrap escaped text in `<code>` tags. -/
def code (text : Str) : Str :=
  S ("<code>") ++ escape_html text ++ S ("</code>")

/-- formatting.rs `format_tool_status` emoji table. -/
def emoji_map : List (Str × Str) :=
  [(S ("Read"), S ("📖")), (S ("Write"), S ("📝")), (S ("Edit"), S ("✏️")),
   (S ("Bash"), S ("▶️")), (S ("Glob"), S ("🔍")), (S ("Grep"), S ("🔎")),
   (S ("WebSearch"), S ("🔍")), (S ("WebFetch"), S ("🌐")),
   (S ("Task"), S ("🎯")), (S ("TodoWrite"), S ("📋")),
   (S ("mcp__"), S ("🔧"))]

/-- formatting.rs `format_tool_status`. -/
def format_tool_status (tool_name : Str) (tool_input : Json) : Str :=
  let emoji := ((emoji_map.find? (fun p => containsSubstr tool_name p.1)).map
    Prod.snd).getD (S ("🔧"))
  let get := fun (k : Str) => ((Json.get tool_input k).bind Json.as_str).getD []
  if tool_name == S ("Read") then
    let file_path := get (S ("file_path"))
    let lower := toLowerStr file_path
    if [S (".jpg"), S (".jpeg"), S (".png"), S (".gif"), S (".webp"),
        S (".bmp"), S (".svg"), S (".ico")].any
        (fun ext => List.isSuffixOf ext lower) then
      S ("👀 Viewing")
    else emoji ++ S (" Reading ") ++ code (shorten_path file_path)
  else if tool_name == S ("Write") then
    emoji ++ S (" Writing ") ++ code (shorten_path (get (S ("file_path"))))
  else if tool_name == S ("Edit") then
    emoji ++ S (" Editing ") ++ code (shorten_path (get (S ("file_path"))))
  else if tool_name == S ("Bash") then
    let cmd := get (S ("command"))
    let desc := get (S ("description"))
    if !(desc == []) then emoji ++ ' ' :: escape_html desc
    else emoji ++ ' ' :: code (truncate_one_line cmd 50)
  else if tool_name == S ("Grep") then
    let pat := get (S ("pattern"))
    let path := get (S ("path"))
    if !(path == []) then
      emoji ++ S (" Searching ") ++ code (truncate_one_line pat 30) ++
        S (" in ") ++ code (shorten_path path)
    else emoji ++ S (" Searching ") ++ code (truncate_one_line pat 40)
  else if tool_name == S ("Glob") then
    emoji ++ S (" Finding ") ++ code (truncate_one_line (get (S ("pattern"))) 50)
  else if tool_name == S ("WebSearch") then
    emoji ++ S (" Searching: ") ++
      escape_html (truncate_one_line (get (S ("query"))) 50)
  else if tool_name == S ("WebFetch") then
    emoji ++ S (" Fetching ") ++ code (truncate_one_line (get (S ("url"))) 50)
  else if tool_name == S ("Task") && !(get (S ("description")) == []) then
    emoji ++ S (" Agent: ") ++ escape_html (get (S ("description")))
  else emoji ++ ' ' :: escape_html tool_name

/-- session.rs `TurnOutput` (the fields the claims read). -/
structure TurnOutput where
  text : Str
  waiting_for_user : Bool
deriving Repr, DecidableEq

/-- session.rs `EventPipeline` state (the messenger, model and clock
handles become explicit arguments / recorded actions). -/
structure PipelineState where
  stream : StreamingState
  current_segment_id : Nat
  current_segment_text : Str
  last_snapshot_text : Str
  last_text_emit : Option Int
  response_parts : List Str
  final_result_text : Option Str
  ask_user_triggered : Bool
  ask_user_buttons_sent : Bool
deriving Repr, DecidableEq

/-- One recorded pipeline side effect: a messaging operation or a
`model.cancel()` call. -/
inductive Act where
  | msg : MsgOp → Act
  | cancelModel : Act
deriving Repr, DecidableEq

/-- The 3-attempt retry loop around `check_pending_ask_user_requests`
in the ask-user branch of `handle_tool_use` (each attempt re-reads the
directory produced by the previous one). -/
def ask_user_retry (cfg : Config) (chat : Int) :
    Nat → List (Str × Option Json) →
      List (Str × Option Json) × List MsgOp × Bool
  | 0, fs => (fs, [], false)
  | Nat.succ k, fs =>
      let r := check_pending_ask_user_requests cfg chat fs
      if r.2.2 then (r.1, r.2.1, true)
      else
        let r2 := ask_user_retry cfg chat k r.1
        (r2.1, r.2.1 ++ r2.2.1, r2.2.2)

/-- `block.get("name").and_then(as_str).unwrap_or("Tool")`. -/
def toolNameOf (block : Json) : Str :=
  ((Json.get block (S ("name"))).bind Json.as_str).getD (S ("Tool"))

/-- `block.get("input").unwrap_or(Null)`. -/
def toolInputOf (block : Json) : Json :=
  (Json.get block (S ("input"))).getD Json.null

/-- session.rs `EventPipeline::handle_tool_use`.  Returns the pipeline
state, the `/tmp` listing, the recorded actions and the `Result`. -/
def handle_tool_use (cfg : Config) (allow : Str → Bool) (st : PipelineState)
    (fs : List (Str × Option Json)) (block : Json) (now : Int) (w : Str) :
    PipelineState × List (Str × Option Json) × List Act × Except CtbError Unit :=
  let tool_name := toolNameOf block
  let tool_input := toolInputOf block
  let cmd := ((Json.get tool_input (S ("command"))).bind Json.as_str).getD []
  let file_path :=
    ((Json.get tool_input (S ("file_path"))).bind Json.as_str).getD []
  if eqIgnoreAsciiCase tool_name (S ("Bash")) &&
      !(check_command_safety cmd cfg.blocked_patterns allow).1 then
    let reason := (check_command_safety cmd cfg.blocked_patterns allow).2
    let r := on_status_at cfg st.stream StatusType.tool
      (S ("BLOCKED: ") ++ escape_html reason) none now w
    ({ st with stream := r.1 }, fs, Act.cancelModel :: r.2.map Act.msg,
      Except.error (CtbError.security (S ("Unsafe command blocked: ") ++ reason)))
  else if ([S ("Read"), S ("Write"), S ("Edit")].any
        (fun t => eqIgnoreAsciiCase tool_name t)) &&
      !(file_path == []) &&
      !(eqIgnoreAsciiCase tool_name (S ("Read")) &&
        (containsSubstr file_path (S ("/.claude/")) ||
          cfg.temp_paths.any (fun p => List.isPrefixOf p file_path))) &&
      !allow file_path then
    let r := on_status_at cfg st.stream StatusType.tool
      (S ("Access denied: ") ++ escape_html file_path) none now w
    ({ st with stream := r.1 }, fs, Act.cancelModel :: r.2.map Act.msg,
      Except.error (CtbError.security (S ("File access blocked: ") ++ file_path)))
  else
    let seg :=
      if !(st.current_segment_text == []) then
        let r := on_status_at cfg st.stream StatusType.segmentEnd
          st.current_segment_text (some st.current_segment_id) now w
        let st2 := { st with
          stream := r.1
          current_segment_id := st.current_segment_id + 1
          current_segment_text := []
          last_snapshot_text := []
          last_text_emit := none }
        (st2, r.2.map Act.msg)
      else (st, [])
    let st1 := seg.1
    if is_ask_user_tool tool_name then
      let r := ask_user_retry cfg st1.stream.chat_id 3 fs
      let st2 := { st1 with
        ask_user_triggered := true
        ask_user_buttons_sent := st1.ask_user_buttons_sent || r.2.2 }
      (st2, r.1, seg.2 ++ r.2.1.map Act.msg ++ [Act.cancelModel], Except.ok ())
    else
      let disp := format_tool_status tool_name tool_input
      let r := on_status_at cfg st1.stream StatusType.tool disp none now w
      ({ st1 with stream := r.1 }, fs, seg.2 ++ r.2.map Act.msg, Except.ok ())

/-- session.rs `EventPipeline::finish`. -/
def finish (cfg : Config) (st : PipelineState) (now : Int) (w : Str) :
    PipelineState × List Act × TurnOutput :=
  if st.ask_user_triggered then
    let r := on_status_at cfg st.stream StatusType.done [] none now w
    ({ st with stream := r.1 }, r.2.map Act.msg,
      { text :=
          if st.ask_user_buttons_sent then S ("[Waiting for user selection]")
          else S ("[Waiting for user selection (no request file found yet)]")
        waiting_for_user := true })
  else
    let seg :=
      if !(st.current_segment_text == []) then
        let r := on_status_at cfg st.stream StatusType.segmentEnd
          st.current_segment_text (some st.current_segment_id) now w
        ({ st with stream := r.1 }, r.2.map Act.msg)
      else (st, [])
    let st1 := seg.1
    let r := on_status_at cfg st1.stream StatusType.done [] none now w
    let joined :=
      if !(st.response_parts == []) then st.response_parts.flatten
      else st.final_result_text.getD (S ("No response from Claude."))
    ({ st1 with stream := r.1 }, seg.2 ++ r.2.map Act.msg,
      { text := joined, waiting_for_user := false })

/-- Fixture config for the pipeline witnesses. -/
def cfgW : Config := Config.mk 40 10 1 30 [] [] true true

/-- Fixture pipeline state (fresh turn in chat 1). -/
def pipeStW : PipelineState :=
  { stream := StreamingState.new 1
    current_segment_id := 0
    current_segment_text := []
    last_snapshot_text := []
    last_text_emit := none
    response_parts := []
    final_result_text := none
    ask_user_triggered := false
    ask_user_buttons_sent := false }

/-- Fixture tool_use block invoking the ask-user tool. -/
def askBlockW : Json := Json.obj [(S ("name"), Json.str (S ("AskUserQuestion")))]

/-- Fixture pending ask-user request file content. -/
def askFileW : Json := Json.obj
  [(S ("status"), Json.str (S ("pending"))),
   (S ("chat_id"), Json.num 1),
   (S ("question"), Json.str (S ("Pick one"))),
   (S ("request_id"), Json.str (S ("r1"))),
   (S ("options"), Json.arr [Json.str (S ("alpha")), Json.str (S ("beta"))])]

/-- Fixture `/tmp` listing holding the pending request. -/
def askFsW : List (Str × Option Json) := [(S ("ask-user-1.json"), some askFileW)]

/-- Fixture `Read` tool_use block with an empty input object (so no
`file_path` key at all). -/
def readBlockW : Json :=
  Json.obj [(S ("name"), Json.str (S ("Read"))), (S ("input"), Json.obj [])]

/-- Looking up the user just written by `setBucket` yields that bucket. -/
theorem lookupBucket_setBucket (bs : List (Int × Bucket)) (u : Int) (b : Bucket) :
    lookupBucket (setBucket bs u b) u = some b := by
  induction bs with
  | nil => simp [lookupBucket, setBucket]
  | cons hd tl ih =>
      obtain ⟨k, v⟩ := hd
      simp only [setBucket]
      by_cases hk : k = u
      · subst hk
        simp [lookupBucket, List.find?]
      · have hku : (k == u) = false := beq_eq_false_iff_ne.mpr hk
        simp only [hku, Bool.false_eq_true, if_false]
        simp only [lookupBucket, List.find?, hku] at ih ⊢
        exact ih

/-- C4: on an enabled limiter, `check_at` refills the (lazily created
full) bucket by `elapsed * refill_per_sec` clamped to `max_tokens`,
allows and deducts one token exactly when the refilled count is ≥ 1,
otherwise denies with wait `(1 - tokens) / refill_per_sec`; afterwards
`0 ≤ tokens ≤ max_tokens`.  A disabled limiter always allows. -/
theorem check_at_spec (rl : RateLimiter) (u : Int) (now : ℚ)
    (hmax : 0 ≤ rl.max_tokens) (href : 0 ≤ rl.refill_per_sec)
    (hwf : ∀ b, lookupBucket rl.buckets u = some b →
      0 ≤ b.tokens ∧ b.tokens ≤ rl.max_tokens) :
    (rl.enabled = false → rl.check_at u now = (rl, true, none)) ∧
    (rl.enabled = true →
      let b0 : Bucket :=
        match lookupBucket rl.buckets u with
        | some b => b
        | none => { tokens := rl.max_tokens, last_update := now }
      let tokens1 : ℚ :=
        min (b0.tokens + max (now - b0.last_update) 0 * rl.refill_per_sec)
          rl.max_tokens
      let out := rl.check_at u now
      (out.2.1 = true ↔ 1 ≤ tokens1) ∧
      (1 ≤ tokens1 → out.2.2 = none ∧
        lookupBucket out.1.buckets u =
          some { tokens := tokens1 - 1, last_update := now }) ∧
      (¬ 1 ≤ tokens1 →
        out.2.2 = some (max ((1 - tokens1) / rl.refill_per_sec) 0) ∧
        lookupBucket out.1.buckets u =
          some { tokens := tokens1, last_update := now }) ∧
      (∀ b, lookupBucket out.1.buckets u = some b →
        0 ≤ b.tokens ∧ b.tokens ≤ rl.max_tokens)) := by
  constructor
  · intro hdis
    simp [RateLimiter.check_at, hdis]
  · intro hen
    intro b0 tokens1 out
    have hb0 : 0 ≤ b0.tokens ∧ b0.tokens ≤ rl.max_tokens := by
      show 0 ≤ b0.tokens ∧ b0.tokens ≤ rl.max_tokens
      cases hlk : lookupBucket rl.buckets u with
      | none => simp only [b0, hlk]; exact ⟨hmax, le_refl _⟩
      | some b => simp only [b0, hlk]; exact hwf b hlk
    have ht1max : tokens1 ≤ rl.max_tokens := min_le_right _ _
    have ht1nonneg : 0 ≤ tokens1 := by
      refine le_min ?_ hmax
      have : 0 ≤ max (now - b0.last_update) 0 * rl.refill_per_sec :=
        mul_nonneg (le_max_right _ _) href
      linarith [hb0.1]
    have hout : out = rl.check_at u now := rfl
    by_cases hge : 1 ≤ tokens1
    · have hres : out = ({ rl with buckets := setBucket rl.buckets u (Bucket.mk (tokens1 - 1) now) }, true, none) := by
        simp only [hout, RateLimiter.check_at, hen, Bool.not_true,
          Bool.false_eq_true, if_false]
        simp only [b0, tokens1] at hge ⊢
        rw [if_pos hge]
      refine ⟨?_, ?_, ?_, ?_⟩
      · simp [hres, hge]
      · intro _
        refine ⟨by simp [hres], ?_⟩
        rw [hres]
        exact lookupBucket_setBucket _ _ _
      · intro h; exact absurd hge h
      · intro b hb
        rw [hres] at hb
        rw [lookupBucket_setBucket] at hb
        cases hb
        constructor
        · show (0:ℚ) ≤ tokens1 - 1
          linarith
        · show tokens1 - 1 ≤ rl.max_tokens
          linarith
    · have hres : out = ({ rl with buckets := setBucket rl.buckets u (Bucket.mk tokens1 now) }, false, some (max ((1 - tokens1) / rl.refill_per_sec) 0)) := by
        simp only [hout, RateLimiter.check_at, hen, Bool.not_true,
          Bool.false_eq_true, if_false]
        simp only [b0, tokens1] at hge ⊢
        rw [if_neg hge]
      refine ⟨?_, ?_, ?_, ?_⟩
      · simp [hres, hge]
      · intro h; exact absurd h hge
      · intro _
        refine ⟨by simp [hres], ?_⟩
        rw [hres]
        exact lookupBucket_setBucket _ _ _
      · intro b hb
        rw [hres] at hb
        rw [lookupBucket_setBucket] at hb
        cases hb
        exact ⟨ht1nonneg, ht1max⟩

/-- Witness for C4 at a concrete input: a fresh enabled limiter with
2 tokens over a 10-second window allows the first call. -/
theorem check_at_spec_witness :
    ((RateLimiter.new true 2 10).check_at 1 0).2.1 = true := by
  have h := check_at_spec (RateLimiter.new true 2 10) 1 0
    (by norm_num [RateLimiter.new]) (by norm_num [RateLimiter.new])
    (by intro b hb; simp [RateLimiter.new, lookupBucket] at hb)
  exact (h.2 rfl).1.mpr (by norm_num [RateLimiter.new, lookupBucket])

/-- C3 counterexample: the claim says a command whose FIRST shell word is
neither `rm` nor `/bin/rm` is always allowed, but the code scans for an
`rm` word anywhere in the command: `echo rm x` (first word `echo`) is
rejected under a policy that allows no path. -/
theorem check_command_safety_first_word_counterexample :
    (split_shell_words (S ("echo rm x"))).headD [] = S ("echo") ∧
    (check_command_safety (S ("echo rm x")) [] (fun _ => false)).1 = false := by
  decide

/-- C3 (amended): with no blocked substring present, if no shell word is
`rm` or `/bin/rm` the command is allowed; otherwise, writing `i` for the
first such word, the check fails iff some later non-flag argument fails
`is_path_allowed`, and then it reports the first failing argument. -/
theorem check_command_safety_spec (command : Str) (blocked : List Str)
    (allow : Str → Bool)
    (hnb : ∀ pat ∈ blocked,
      containsSubstr (toLowerStr command) (toLowerStr pat) = false) :
    ((split_shell_words command).findIdx? isRmWord = none →
      check_command_safety command blocked allow = (true, [])) ∧
    (∀ i, (split_shell_words command).findIdx? isRmWord = some i →
      (((check_command_safety command blocked allow).1 = false) ↔
        ∃ arg ∈ (split_shell_words command).drop (i + 1),
          startsWithDash arg = false ∧ allow arg = false) ∧
      (∀ arg,
        ((split_shell_words command).drop (i + 1)).find? (isBadRmArg allow) =
          some arg →
        check_command_safety command blocked allow =
          (false, S ("rm target outside allowed paths: ") ++ arg))) := by
  have hbl : blocked.find?
      (fun pat => containsSubstr (toLowerStr command) (toLowerStr pat)) = none := by
    rw [List.find?_eq_none]
    intro pat hp
    simp [hnb pat hp]
  constructor
  · intro hidx
    unfold check_command_safety
    by_cases hw : split_shell_words command = []
    · simp only [hbl, if_pos hw]
    · simp only [hbl, if_neg hw, hidx]
  · intro i hidx
    have hw : ¬ split_shell_words command = [] := by
      intro h
      rw [h] at hidx
      simp [List.findIdx?] at hidx
    constructor
    · cases hfind : ((split_shell_words command).drop (i + 1)).find?
          (isBadRmArg allow) with
      | none =>
          have h1 : check_command_safety command blocked allow = (true, []) := by
            unfold check_command_safety
            simp only [hbl, if_neg hw, hidx, hfind]
          rw [h1]
          constructor
          · intro h; exact absurd h (by decide)
          · rintro ⟨arg, hmem, hdash, hallow⟩
            have hx := List.find?_eq_none.mp hfind arg hmem
            simp [isBadRmArg, hdash, hallow] at hx
      | some a =>
          have h1 : check_command_safety command blocked allow =
              (false, S ("rm target outside allowed paths: ") ++ a) := by
            unfold check_command_safety
            simp only [hbl, if_neg hw, hidx, hfind]
          rw [h1]
          constructor
          · intro _
            have hp := List.find?_some hfind
            have hm := List.mem_of_find?_eq_some hfind
            simp only [isBadRmArg, Bool.and_eq_true, Bool.not_eq_true'] at hp
            exact ⟨a, hm, hp.1, hp.2⟩
          · intro _; rfl
    · intro arg hfind
      unfold check_command_safety
      simp only [hbl, if_neg hw, hidx, hfind]

/-- Witness for C3 (amended) at a concrete input: `rm /etc/passwd` under
an all-denying path policy fails with the expected reason. -/
theorem check_command_safety_spec_witness :
    check_command_safety (S ("rm /etc/passwd")) [] (fun _ => false) =
      (false, S ("rm target outside allowed paths: ") ++ S ("/etc/passwd")) := by
  have h := check_command_safety_spec (S ("rm /etc/passwd")) [] (fun _ => false)
    (by intro pat hp; cases hp)
  exact (h.2 0 (by decide)).2 (S ("/etc/passwd")) (by decide)

/-- C1: if the raw path resolves (tilde expansion, canonicalization when
the path exists, lexical normalization against the base otherwise) to a
path that lies outside every temp prefix and outside (and not equal to)
every canonicalized allowed path, `is_path_allowed` returns false.  In
particular a symlink below an allowed directory whose canonical target
is outside is denied (the canonicalized form is what is compared). -/
theorem is_path_allowed_safety (pol : PathPolicy) (env : FsEnv) (raw : RPath)
    (htmp : ∀ tmp ∈ pol.temp_paths,
      (pol.resolve_user_path env raw).startsWith tmp = false)
    (hall : ∀ a ∈ pol.allowed_paths,
      pol.resolve_user_path env raw ≠
        canonicalize_or_resolve env (pol.expand_tilde_path a) pol.base_dir ∧
      (pol.resolve_user_path env raw).startsWith
        (canonicalize_or_resolve env (pol.expand_tilde_path a) pol.base_dir) =
        false) :
    pol.is_path_allowed env raw = false := by
  unfold PathPolicy.is_path_allowed
  have h1 : pol.temp_paths.any
      (fun tmp => (pol.resolve_user_path env raw).startsWith tmp) = false := by
    rw [List.any_eq_false]
    intro tmp hmem
    simp [htmp tmp hmem]
  rw [if_neg (by simp [h1])]
  rw [List.any_eq_false]
  intro a hmem
  have h2 := hall a hmem
  simp only [Bool.or_eq_true, beq_iff_eq, not_or]
  exact ⟨h2.1, by simp [h2.2]⟩

/-- Witness for C1: a symlink-escape instance.  `/allowed/link` is a
symlink to `/outside`; the filesystem oracle canonicalizes
`/allowed/link/secret` to `/outside/secret`, which is outside the only
allowed path `/allowed` and outside the (empty) temp list, so the check
denies it. -/
theorem is_path_allowed_safety_witness :
    (PathPolicy.mk [[PComp.rootDir, PComp.normal (S ("allowed"))]] [] none none).is_path_allowed
      (FsEnv.mk
        (fun p =>
          if p = [PComp.rootDir, PComp.normal (S ("allowed")), PComp.normal (S ("link")), PComp.normal (S ("secret"))] then
            some [PComp.rootDir, PComp.normal (S ("outside")), PComp.normal (S ("secret"))]
          else if p = [PComp.rootDir, PComp.normal (S ("allowed"))] then
            some [PComp.rootDir, PComp.normal (S ("allowed"))]
          else none)
        [PComp.rootDir])
      [PComp.rootDir, PComp.normal (S ("allowed")), PComp.normal (S ("link")), PComp.normal (S ("secret"))] = false := by
  apply is_path_allowed_safety
  · intro tmp hmem
    cases hmem
  · intro a hmem
    have ha : a = [PComp.rootDir, PComp.normal (S ("allowed"))] := by
      simpa using hmem
    subst ha
    exact ⟨by decide, by decide⟩

theorem sanitize_aux_ok (orig : RPath) :
    ∀ (p : RPath) (out rel : List Str),
      sanitize_rel_path_aux orig p out = .ok rel →
      rel = out ++ normalNames p ∧ rel ≠ [] ∧
      PComp.parentDir ∉ p ∧ PComp.rootDir ∉ p ∧ ∀ s, PComp.prefixC s ∉ p := by
  intro p
  induction p with
  | nil =>
      intro out rel h
      simp only [sanitize_rel_path_aux] at h
      split at h
      · cases h
      · next hne =>
          cases h
          exact ⟨by simp [normalNames], hne, by simp, by simp, by simp⟩
  | cons c rest ih =>
      intro out rel h
      cases c with
      | curDir =>
          simp only [sanitize_rel_path_aux] at h
          obtain ⟨h1, h2, h3, h4, h5⟩ := ih out rel h
          refine ⟨?_, h2, by simp [h3], by simp [h4], fun s2 => by simp [h5 s2]⟩
          rw [h1]
          simp [normalNames]
      | normal s =>
          simp only [sanitize_rel_path_aux] at h
          obtain ⟨h1, h2, h3, h4, h5⟩ := ih (out ++ [s]) rel h
          refine ⟨?_, h2, by simp [h3], by simp [h4], fun s2 => by simp [h5 s2]⟩
          rw [h1]
          simp [normalNames]
      | parentDir => simp only [sanitize_rel_path_aux] at h; cases h
      | rootDir => simp only [sanitize_rel_path_aux] at h; cases h
      | prefixC s => simp only [sanitize_rel_path_aux] at h; cases h

theorem sanitize_aux_error_security (orig : RPath) :
    ∀ (p : RPath) (out : List Str) (err : CtbError),
      sanitize_rel_path_aux orig p out = .error err →
      ∃ msg, err = CtbError.security msg := by
  intro p
  induction p with
  | nil =>
      intro out err h
      simp only [sanitize_rel_path_aux] at h
      split at h
      · cases h; exact ⟨_, rfl⟩
      · cases h
  | cons c rest ih =>
      intro out err h
      cases c with
      | curDir => exact ih out err h
      | normal s => exact ih (out ++ [s]) err h
      | parentDir => cases h; exact ⟨_, rfl⟩
      | rootDir => cases h; exact ⟨_, rfl⟩
      | prefixC s => cases h; exact ⟨_, rfl⟩

/-- A path with a `..`, a root, a drive prefix, or no normal component
at all is rejected by `sanitize_rel_path` with a `Security` error. -/
theorem sanitize_bad_security (p : RPath)
    (hbad : PComp.parentDir ∈ p ∨ PComp.rootDir ∈ p ∨
      (∃ s, PComp.prefixC s ∈ p) ∨ normalNames p = []) :
    isSecurityError (sanitize_rel_path p) := by
  cases hres : sanitize_rel_path p with
  | ok rel =>
      exfalso
      obtain ⟨h1, h2, h3, h4, h5⟩ := sanitize_aux_ok p p [] rel hres
      rcases hbad with hb | hb | ⟨s, hb⟩ | hb
      · exact h3 hb
      · exact h4 hb
      · exact h5 s hb
      · exact h2 (by simp [h1, hb])
  | error err =>
      obtain ⟨msg, hmsg⟩ := sanitize_aux_error_security p p [] err hres
      exact ⟨msg, by rw [hmsg]⟩

theorem sanitize_error_security (p : RPath) (err : CtbError)
    (h : sanitize_rel_path p = .error err) : ∃ msg, err = CtbError.security msg :=
  sanitize_aux_error_security p p [] err h

theorem tar_loop_error_security (limits : ExtractLimits) :
    ∀ (entries : List TarEntry) (fc total : Nat) (rep : ExtractReport)
      (err : CtbError),
      safe_extract_tar_loop limits entries fc total rep = .error err →
      ∃ msg, err = CtbError.security msg := by
  intro entries
  induction entries with
  | nil =>
      intro fc total rep err h
      simp only [safe_extract_tar_loop] at h
      cases h
  | cons e rest ih =>
      intro fc total rep err h
      simp only [safe_extract_tar_loop] at h
      by_cases hguard : (!e.entry_type.is_file && !e.entry_type.is_dir) = true
      · rw [if_pos hguard] at h
        cases h
        exact ⟨_, rfl⟩
      · rw [if_neg hguard] at h
        cases hsan : sanitize_rel_path e.path with
        | error err2 =>
            simp only [hsan] at h
            injection h with h2
            subst h2
            exact sanitize_error_security e.path _ hsan
        | ok rel =>
            simp only [hsan] at h
            by_cases hdir : e.entry_type.is_dir = true
            · rw [if_pos hdir] at h
              exact ih _ _ _ _ h
            · rw [if_neg hdir] at h
              by_cases h1 : fc + 1 > limits.max_files
              · rw [if_pos h1] at h; cases h; exact ⟨_, rfl⟩
              · rw [if_neg h1] at h
                by_cases h2 : e.size > limits.max_file_bytes
                · rw [if_pos h2] at h; cases h; exact ⟨_, rfl⟩
                · rw [if_neg h2] at h
                  by_cases h3 : total + e.size > limits.max_total_bytes
                  · rw [if_pos h3] at h; cases h; exact ⟨_, rfl⟩
                  · rw [if_neg h3] at h
                    by_cases h4 : min e.actual (limits.max_file_bytes + 1) > limits.max_file_bytes
                    · rw [if_pos h4] at h; cases h; exact ⟨_, rfl⟩
                    · rw [if_neg h4] at h
                      exact ih _ _ _ _ h

theorem tar_loop_ok (limits : ExtractLimits) :
    ∀ (entries : List TarEntry) (fc total : Nat) (rep rep2 : ExtractReport),
      safe_extract_tar_loop limits entries fc total rep = .ok rep2 →
      (∀ e ∈ entries, (e.entry_type.is_file || e.entry_type.is_dir) = true ∧
        ∃ rel, sanitize_rel_path e.path = .ok rel) ∧
      (∀ rel ∈ rep2.extracted_files, rel ∈ rep.extracted_files ∨
        ∃ e ∈ entries, e.entry_type.is_file = true ∧
          sanitize_rel_path e.path = .ok rel) := by
  intro entries
  induction entries with
  | nil =>
      intro fc total rep rep2 h
      simp only [safe_extract_tar_loop] at h
      cases h
      exact ⟨by simp, fun rel hrel => Or.inl hrel⟩
  | cons e rest ih =>
      intro fc total rep rep2 h
      simp only [safe_extract_tar_loop] at h
      by_cases hguard : (!e.entry_type.is_file && !e.entry_type.is_dir) = true
      · rw [if_pos hguard] at h
        cases h
      · rw [if_neg hguard] at h
        have hfd : (e.entry_type.is_file || e.entry_type.is_dir) = true := by
          cases hf : e.entry_type.is_file <;> cases hd : e.entry_type.is_dir <;>
            simp_all
        cases hsan : sanitize_rel_path e.path with
        | error err2 =>
            simp only [hsan] at h
            cases h
        | ok rel2 =>
            simp only [hsan] at h
            by_cases hdir : e.entry_type.is_dir = true
            · rw [if_pos hdir] at h
              obtain ⟨ha, hb⟩ := ih _ _ _ _ h
              refine ⟨?_, ?_⟩
              · intro e2 he2
                rcases List.mem_cons.mp he2 with rfl | hmem
                · exact ⟨hfd, rel2, hsan⟩
                · exact ha e2 hmem
              · intro rel hrel
                rcases hb rel hrel with hin | ⟨e2, hm, hf2, hs⟩
                · exact Or.inl hin
                · exact Or.inr ⟨e2, List.mem_cons_of_mem _ hm, hf2, hs⟩
            · rw [if_neg hdir] at h
              have hfile : e.entry_type.is_file = true := by
                cases hf : e.entry_type.is_file <;> simp_all
              by_cases h1 : fc + 1 > limits.max_files
              · rw [if_pos h1] at h; cases h
              · rw [if_neg h1] at h
                by_cases h2 : e.size > limits.max_file_bytes
                · rw [if_pos h2] at h; cases h
                · rw [if_neg h2] at h
                  by_cases h3 : total + e.size > limits.max_total_bytes
                  · rw [if_pos h3] at h; cases h
                  · rw [if_neg h3] at h
                    by_cases h4 : min e.actual (limits.max_file_bytes + 1) > limits.max_file_bytes
                    · rw [if_pos h4] at h; cases h
                    · rw [if_neg h4] at h
                      obtain ⟨ha, hb⟩ := ih _ _ _ _ h
                      refine ⟨?_, ?_⟩
                      · intro e2 he2
                        rcases List.mem_cons.mp he2 with rfl | hmem
                        · exact ⟨hfd, rel2, hsan⟩
                        · exact ha e2 hmem
                      · intro rel hrel
                        rcases hb rel hrel with hin | ⟨e2, hm, hf2, hs⟩
                        · rcases List.mem_append.mp hin with hin2 | hin2
                          · exact Or.inl hin2
                          · have hre : rel = rel2 := by simpa using hin2
                            subst hre
                            exact Or.inr ⟨e, List.mem_cons_self _ _, hfile, hsan⟩
                        · exact Or.inr ⟨e2, List.mem_cons_of_mem _ hm, hf2, hs⟩

theorem zip_loop_error_security (limits : ExtractLimits) :
    ∀ (entries : List ZipEntry) (fc total : Nat) (rep : ExtractReport)
      (err : CtbError),
      safe_extract_zip_loop limits entries fc total rep = .error err →
      ∃ msg, err = CtbError.security msg := by
  intro entries
  induction entries with
  | nil =>
      intro fc total rep err h
      simp only [safe_extract_zip_loop] at h
      cases h
  | cons e rest ih =>
      intro fc total rep err h
      simp only [safe_extract_zip_loop] at h
      by_cases hname : replaceChar bslash '/' e.name = []
      · rw [if_pos hname] at h
        exact ih _ _ _ _ h
      · rw [if_neg hname] at h
        by_cases hsym : zipModeIsSymlink e.unix_mode = true
        · rw [if_pos hsym] at h
          cases h
          exact ⟨_, rfl⟩
        · rw [if_neg hsym] at h
          cases hsan : sanitize_rel_path (parsePathStr (replaceChar bslash '/' e.name)) with
          | error err2 =>
              simp only [hsan] at h
              injection h with h2
              subst h2
              exact sanitize_error_security _ _ hsan
          | ok rel =>
              simp only [hsan] at h
              by_cases hdir : e.is_dir = true
              · rw [if_pos hdir] at h
                exact ih _ _ _ _ h
              · rw [if_neg hdir] at h
                by_cases h1 : fc + 1 > limits.max_files
                · rw [if_pos h1] at h; cases h; exact ⟨_, rfl⟩
                · rw [if_neg h1] at h
                  by_cases h2 : e.size > limits.max_file_bytes
                  · rw [if_pos h2] at h; cases h; exact ⟨_, rfl⟩
                  · rw [if_neg h2] at h
                    by_cases h3 : total + e.size > limits.max_total_bytes
                    · rw [if_pos h3] at h; cases h; exact ⟨_, rfl⟩
                    · rw [if_neg h3] at h
                      by_cases h4 : min e.actual (limits.max_file_bytes + 1) > limits.max_file_bytes
                      · rw [if_pos h4] at h; cases h; exact ⟨_, rfl⟩
                      · rw [if_neg h4] at h
                        exact ih _ _ _ _ h

theorem zip_loop_ok (limits : ExtractLimits) :
    ∀ (entries : List ZipEntry) (fc total : Nat) (rep rep2 : ExtractReport),
      safe_extract_zip_loop limits entries fc total rep = .ok rep2 →
      (∀ e ∈ entries, replaceChar bslash '/' e.name ≠ [] →
        zipModeIsSymlink e.unix_mode = false ∧
        ∃ rel, sanitize_rel_path (parsePathStr (replaceChar bslash '/' e.name)) = .ok rel) ∧
      (∀ rel ∈ rep2.extracted_files, rel ∈ rep.extracted_files ∨
        ∃ e ∈ entries, replaceChar bslash '/' e.name ≠ [] ∧ e.is_dir = false ∧
          sanitize_rel_path (parsePathStr (replaceChar bslash '/' e.name)) = .ok rel) := by
  intro entries
  induction entries with
  | nil =>
      intro fc total rep rep2 h
      simp only [safe_extract_zip_loop] at h
      cases h
      exact ⟨by simp, fun rel hrel => Or.inl hrel⟩
  | cons e rest ih =>
      intro fc total rep rep2 h
      simp only [safe_extract_zip_loop] at h
      by_cases hname : replaceChar bslash '/' e.name = []
      · rw [if_pos hname] at h
        obtain ⟨ha, hb⟩ := ih _ _ _ _ h
        refine ⟨?_, ?_⟩
        · intro e2 he2 hn2
          rcases List.mem_cons.mp he2 with rfl | hmem
          · exact absurd hname hn2
          · exact ha e2 hmem hn2
        · intro rel hrel
          rcases hb rel hrel with hin | ⟨e2, hm, hp⟩
          · exact Or.inl hin
          · exact Or.inr ⟨e2, List.mem_cons_of_mem _ hm, hp⟩
      · rw [if_neg hname] at h
        by_cases hsym : zipModeIsSymlink e.unix_mode = true
        · rw [if_pos hsym] at h
          cases h
        · rw [if_neg hsym] at h
          cases hsan : sanitize_rel_path (parsePathStr (replaceChar bslash '/' e.name)) with
          | error err2 =>
              simp only [hsan] at h
              cases h
          | ok rel2 =>
              simp only [hsan] at h
              by_cases hdir : e.is_dir = true
              · rw [if_pos hdir] at h
                obtain ⟨ha, hb⟩ := ih _ _ _ _ h
                refine ⟨?_, ?_⟩
                · intro e2 he2 hn2
                  rcases List.mem_cons.mp he2 with rfl | hmem
                  · exact ⟨Bool.not_eq_true _ ▸ eq_false_of_ne_true hsym, rel2, hsan⟩
                  · exact ha e2 hmem hn2
                · intro rel hrel
                  rcases hb rel hrel with hin | ⟨e2, hm, hp⟩
                  · exact Or.inl hin
                  · exact Or.inr ⟨e2, List.mem_cons_of_mem _ hm, hp⟩
              · rw [if_neg hdir] at h
                by_cases h1 : fc + 1 > limits.max_files
                · rw [if_pos h1] at h; cases h
                · rw [if_neg h1] at h
                  by_cases h2 : e.size > limits.max_file_bytes
                  · rw [if_pos h2] at h; cases h
                  · rw [if_neg h2] at h
                    by_cases h3 : total + e.size > limits.max_total_bytes
                    · rw [if_pos h3] at h; cases h
                    · rw [if_neg h3] at h
                      by_cases h4 : min e.actual (limits.max_file_bytes + 1) > limits.max_file_bytes
                      · rw [if_pos h4] at h; cases h
                      · rw [if_neg h4] at h
                        obtain ⟨ha, hb⟩ := ih _ _ _ _ h
                        refine ⟨?_, ?_⟩
                        · intro e2 he2 hn2
                          rcases List.mem_cons.mp he2 with rfl | hmem
                          · exact ⟨Bool.not_eq_true _ ▸ eq_false_of_ne_true hsym, rel2, hsan⟩
                          · exact ha e2 hmem hn2
                        · intro rel hrel
                          rcases hb rel hrel with hin | ⟨e2, hm, hp⟩
                          · rcases List.mem_append.mp hin with hin2 | hin2
                            · exact Or.inl hin2
                            · have hre : rel = rel2 := by simpa using hin2
                              subst hre
                              exact Or.inr ⟨e, List.mem_cons_self _ _, hname,
                                eq_false_of_ne_true hdir, hsan⟩
                          · exact Or.inr ⟨e2, List.mem_cons_of_mem _ hm, hp⟩

/-- C2 counterexample: a zip entry carrying unix block-device mode bits
(`0o060000` = 24576) is neither a regular file nor a directory, yet
`safe_extract_zip` does not return a `Security` error: it materializes
the entry as a regular file (only the symlink kind `0o120000` is
rejected for zip). -/
theorem safe_extract_zip_device_counterexample :
    zipModeIsSymlink (some 24576) = false ∧
    (24576 &&& 61440) = 24576 ∧
    safe_extract_zip [ZipEntry.mk (S ("dev")) (some 24576) false 1 1]
        ExtractLimits.default =
      .ok (ExtractReport.mk [[S ("dev")]] 1) :=
  ⟨rfl, rfl, rfl⟩

/-- C2 (amended): for tar (and tar+gzip) archives, any entry that is
neither a regular file nor a directory, or whose path has a `..`, a
root, a drive prefix, or no normal component, forces a `Security`
error; for zip archives the same holds for symlink-mode entries and bad
paths (other special unix modes are extracted as regular files).  On
success every reported path is a non-empty sanitized relative path (the
normal components of the entry path), so nothing is written outside
`dest_dir`. -/
theorem safe_extract_archive_spec (limits : ExtractLimits) :
    (∀ (entries : List TarEntry),
      (∃ e ∈ entries,
        (e.entry_type.is_file = false ∧ e.entry_type.is_dir = false) ∨
        PComp.parentDir ∈ e.path ∨ PComp.rootDir ∈ e.path ∨
        (∃ s, PComp.prefixC s ∈ e.path) ∨ normalNames e.path = []) →
      isSecurityError (safe_extract_tar_reader entries limits)) ∧
    (∀ (entries : List TarEntry) (rep : ExtractReport),
      safe_extract_tar_reader entries limits = .ok rep →
      ∀ rel ∈ rep.extracted_files, rel ≠ [] ∧
        ∃ e ∈ entries, e.entry_type.is_file = true ∧
          sanitize_rel_path e.path = .ok rel) ∧
    (∀ (entries : List ZipEntry),
      (∃ e ∈ entries, replaceChar bslash '/' e.name ≠ [] ∧
        (zipModeIsSymlink e.unix_mode = true ∨
         PComp.parentDir ∈ parsePathStr (replaceChar bslash '/' e.name) ∨
         PComp.rootDir ∈ parsePathStr (replaceChar bslash '/' e.name) ∨
         (∃ s, PComp.prefixC s ∈ parsePathStr (replaceChar bslash '/' e.name)) ∨
         normalNames (parsePathStr (replaceChar bslash '/' e.name)) = [])) →
      isSecurityError (safe_extract_zip entries limits)) ∧
    (∀ (entries : List ZipEntry) (rep : ExtractReport),
      safe_extract_zip entries limits = .ok rep →
      ∀ rel ∈ rep.extracted_files, rel ≠ [] ∧
        ∃ e ∈ entries, e.is_dir = false ∧
          sanitize_rel_path (parsePathStr (replaceChar bslash '/' e.name)) =
            .ok rel) := by
  refine ⟨?_, ?_, ?_, ?_⟩
  · rintro entries ⟨e, hmem, hbad⟩
    cases hres : safe_extract_tar_reader entries limits with
    | error err =>
        obtain ⟨msg, hm⟩ := tar_loop_error_security limits entries 0 0 _ err hres
        exact ⟨msg, by rw [hm]⟩
    | ok rep =>
        exfalso
        obtain ⟨ha, _⟩ := tar_loop_ok limits entries 0 0 _ rep hres
        obtain ⟨hfd, rel, hok⟩ := ha e hmem
        rcases hbad with ⟨hf, hd⟩ | hb
        · rw [hf, hd] at hfd
          cases hfd
        · obtain ⟨msg, hm⟩ := sanitize_bad_security e.path hb
          rw [hok] at hm
          cases hm
  · intro entries rep hres rel hrel
    obtain ⟨_, hb⟩ := tar_loop_ok limits entries 0 0 _ rep hres
    rcases hb rel hrel with hin | ⟨e, hm, hf, hs⟩
    · cases hin
    · refine ⟨?_, e, hm, hf, hs⟩
      exact (sanitize_aux_ok e.path e.path [] rel hs).2.1
  · rintro entries ⟨e, hmem, hname, hbad⟩
    cases hres : safe_extract_zip entries limits with
    | error err =>
        obtain ⟨msg, hm⟩ := zip_loop_error_security limits entries 0 0 _ err hres
        exact ⟨msg, by rw [hm]⟩
    | ok rep =>
        exfalso
        obtain ⟨ha, _⟩ := zip_loop_ok limits entries 0 0 _ rep hres
        obtain ⟨hsym, rel, hok⟩ := ha e hmem hname
        rcases hbad with hs | hb
        · rw [hsym] at hs
          cases hs
        · obtain ⟨msg, hm⟩ :=
            sanitize_bad_security (parsePathStr (replaceChar bslash '/' e.name)) hb
          rw [hok] at hm
          cases hm
  · intro entries rep hres rel hrel
    obtain ⟨_, hb⟩ := zip_loop_ok limits entries 0 0 _ rep hres
    rcases hb rel hrel with hin | ⟨e, hm, hn, hd, hs⟩
    · cases hin
    · refine ⟨?_, e, hm, hd, hs⟩
      exact (sanitize_aux_ok _ _ [] rel hs).2.1

/-- Witness for C2 (amended) at concrete inputs: a tar with a `../evil`
entry is rejected with a `Security` error, and a successful tar
extraction of `a/b.txt` reports exactly that sanitized relative path. -/
theorem safe_extract_archive_spec_witness :
    isSecurityError
      (safe_extract_tar_reader
        [TarEntry.mk EntryType.file [PComp.parentDir, PComp.normal (S ("evil"))] 1 1]
        ExtractLimits.default) ∧
    ([S ("a"), S ("b.txt")] ≠ [] ∧
      ∃ e ∈ [TarEntry.mk EntryType.file
          [PComp.normal (S ("a")), PComp.normal (S ("b.txt"))] 1 1],
        e.entry_type.is_file = true ∧
        sanitize_rel_path e.path = .ok [S ("a"), S ("b.txt")]) := by
  constructor
  · exact (safe_extract_archive_spec ExtractLimits.default).1
      [TarEntry.mk EntryType.file [PComp.parentDir, PComp.normal (S ("evil"))] 1 1]
      ⟨_, List.mem_singleton.mpr rfl, Or.inr (Or.inl (by decide))⟩
  · exact (safe_extract_archive_spec ExtractLimits.default).2.1
      [TarEntry.mk EntryType.file
        [PComp.normal (S ("a")), PComp.normal (S ("b.txt"))] 1 1]
      (ExtractReport.mk [[S ("a"), S ("b.txt")]] 1)
      rfl
      [S ("a"), S ("b.txt")] (by decide)

/-- C5: whenever `cancel` returns `Ok`, the supervisor owns no child and
the cancellation token slot is cleared; and if `kill` fails while
`try_wait` still reports the child alive, the child handle is
reinstated and `cancel` returns an error. -/
theorem cancel_spec (st : SupState) :
    ((cancel st).2 = .ok () →
      (cancel st).1.child = none ∧ (cancel st).1.cancel = none) ∧
    (∀ child, st.child = some child →
      child.tryWait1 = .ok none →
      child.kill = .error () →
      child.tryWait2 = .ok none →
      (cancel st).1.child = some child ∧ (cancel st).2 = .error CtbError.io) := by
  constructor
  · intro hok
    unfold cancel kill_child clear_cancel_token at hok ⊢
    cases hc : st.cancel with
    | none =>
        simp only [hc] at hok ⊢
        cases hchild : st.child with
        | none => simp [hchild]
        | some child =>
            simp only [hchild] at hok ⊢
            cases ht1 : child.tryWait1 with
            | error e => simp only [ht1] at hok ⊢; cases hok
            | ok o1 =>
                cases o1 with
                | some s => simp [ht1]
                | none =>
                    simp only [ht1] at hok ⊢
                    cases hk : child.kill with
                    | ok u =>
                        cases hw : child.wait with
                        | error e => simp only [hk, hw] at hok ⊢; cases hok
                        | ok s => simp [hk, hw]
                    | error e =>
                        cases ht2 : child.tryWait2 with
                        | error e2 => simp only [hk, ht2] at hok ⊢; cases hok
                        | ok o2 =>
                            cases o2 with
                            | none => simp only [hk, ht2] at hok ⊢; cases hok
                            | some s => simp [hk, ht2]
    | some tok =>
        simp only [hc] at hok ⊢
        cases hchild : st.child with
        | none => simp [hchild]
        | some child =>
            simp only [hchild] at hok ⊢
            cases ht1 : child.tryWait1 with
            | error e => simp only [ht1] at hok ⊢; cases hok
            | ok o1 =>
                cases o1 with
                | some s => simp [ht1]
                | none =>
                    simp only [ht1] at hok ⊢
                    cases hk : child.kill with
                    | ok u =>
                        cases hw : child.wait with
                        | error e => simp only [hk, hw] at hok ⊢; cases hok
                        | ok s => simp [hk, hw]
                    | error e =>
                        cases ht2 : child.tryWait2 with
                        | error e2 => simp only [hk, ht2] at hok ⊢; cases hok
                        | ok o2 =>
                            cases o2 with
                            | none => simp only [hk, ht2] at hok ⊢; cases hok
                            | some s => simp [hk, ht2]
  · intro child hchild ht1 hk ht2
    unfold cancel kill_child clear_cancel_token
    cases hc : st.cancel with
    | none => simp [hc, hchild, ht1, hk, ht2]
    | some tok => simp [hc, hchild, ht1, hk, ht2]

/-- Witness for C5 at concrete states: an already-exited child is
cancelled with `Ok` leaving no child; a kill failure with the child
still alive reinstates the handle and errors. -/
theorem cancel_spec_witness :
    ((cancel (SupState.mk
        (some (ChildOps.mk (.ok (some 0)) (.ok ()) (.ok 0) (.ok none)))
        (some (CancelToken.mk false)))).1.child = none ∧
      (cancel (SupState.mk
        (some (ChildOps.mk (.ok (some 0)) (.ok ()) (.ok 0) (.ok none)))
        (some (CancelToken.mk false)))).1.cancel = none) ∧
    ((cancel (SupState.mk
        (some (ChildOps.mk (.ok none) (.error ()) (.ok 0) (.ok none)))
        none)).1.child =
        some (ChildOps.mk (.ok none) (.error ()) (.ok 0) (.ok none)) ∧
      (cancel (SupState.mk
        (some (ChildOps.mk (.ok none) (.error ()) (.ok 0) (.ok none)))
        none)).2 = .error CtbError.io) := by
  constructor
  · exact (cancel_spec (SupState.mk
      (some (ChildOps.mk (.ok (some 0)) (.ok ()) (.ok 0) (.ok none)))
      (some (CancelToken.mk false)))).1 rfl
  · exact (cancel_spec (SupState.mk
      (some (ChildOps.mk (.ok none) (.error ()) (.ok 0) (.ok none)))
      none)).2 _ rfl rfl rfl rfl

/-- The second field is the timestamp modulo one minute. -/
theorem second_eq_mod60 (t : DateTimeL) :
    t.second = (t.secs.emod 60).toNat := by
  have h1 : t.secs.emod 86400 % 60 = t.secs.emod 60 :=
    Int.emod_emod_of_dvd _ (by norm_num)
  have h2 : (0:Int) ≤ t.secs.emod 86400 := Int.emod_nonneg _ (by norm_num)
  have h3 : (0:Int) ≤ t.secs.emod 60 := Int.emod_nonneg _ (by norm_num)
  show (t.secs.emod 86400).toNat % 60 = (t.secs.emod 60).toNat
  omega

theorem searchLoop_some (e : CronExpr) :
    ∀ (fuel : Nat) (s t : DateTimeL), searchLoop e fuel s = some t →
      e.matches t = true ∧ ∃ k : Nat, t.secs = s.secs + 60 * k := by
  intro fuel
  induction fuel with
  | zero => intro s t h; cases h
  | succ n ih =>
      intro s t h
      simp only [searchLoop] at h
      by_cases hm : e.matches s = true
      · rw [if_pos hm] at h
        cases h
        exact ⟨hm, 0, by ring⟩
      · rw [if_neg hm] at h
        obtain ⟨hma, k, hk⟩ := ih _ _ h
        refine ⟨hma, k + 1, ?_⟩
        have hk2 : t.secs = s.secs + 60 + 60 * k := hk
        omega

/-- C7: whenever `next_after` yields a datetime, it is strictly after
`now`, has zero seconds, and satisfies `matches`; the search starts at
`now + 1 minute` with seconds zeroed and advances minute-by-minute
under the `366 * 24 * 60` iteration cap (first conjunct, by
definition). -/
theorem next_after_spec (e : CronExpr) (now : DateTimeL) :
    e.next_after now =
      searchLoop e (366 * 24 * 60)
        (DateTimeL.mk ((now.secs + 60) - (now.secs + 60).emod 60)) ∧
    (∀ t, e.next_after now = some t →
      now.secs < t.secs ∧ t.second = 0 ∧ e.matches t = true) := by
  refine ⟨rfl, ?_⟩
  intro t h
  obtain ⟨hm, k, hk⟩ := searchLoop_some e (366 * 24 * 60)
    (DateTimeL.mk ((now.secs + 60) - (now.secs + 60).emod 60)) t h
  have hk2 : t.secs = (now.secs + 60) - (now.secs + 60).emod 60 + 60 * k := hk
  have hr1 : (0:Int) ≤ (now.secs + 60).emod 60 := Int.emod_nonneg _ (by norm_num)
  have hr2 : (now.secs + 60).emod 60 < 60 := Int.emod_lt_of_pos _ (by norm_num)
  have hr3 : (0:Int) ≤ t.secs.emod 60 := Int.emod_nonneg _ (by norm_num)
  have hr4 : t.secs.emod 60 < 60 := Int.emod_lt_of_pos _ (by norm_num)
  refine ⟨by omega, ?_, hm⟩
  have hz : t.secs % 60 = 0 := by
    have hk3 : t.secs = (now.secs + 60) - (now.secs + 60) % 60 + 60 * k := hk2
    rw [hk3, Int.add_mul_emod_self_left, Int.sub_emod,
      Int.emod_emod_of_dvd _ (dvd_refl 60)]
    simp
  rw [second_eq_mod60]
  have hz2 : t.secs.emod 60 = 0 := hz
  rw [hz2]
  rfl

/-- Witness for C7 at the concrete scenario of the source tests:
`*/5 * * * *` from local 2026-01-01 10:01:30 fires next at 10:05:00. -/
theorem next_after_spec_witness :
    ∃ e, CronExpr.parse (S ("*/5 * * * *")) = .ok e ∧
      e.next_after (DateTimeL.mk 1767261690) = some (DateTimeL.mk 1767261900) ∧
      (DateTimeL.mk 1767261690).secs < (DateTimeL.mk 1767261900).secs ∧
      (DateTimeL.mk 1767261900).second = 0 ∧
      e.matches (DateTimeL.mk 1767261900) = true ∧
      (DateTimeL.mk 1767261900).minute = 5 := by
  refine ⟨CronExpr.mk
      (Field.mk 0 59 false ((List.range 60).map (fun i => decide (i % 5 = 0))))
      (Field.mk 0 23 true (List.replicate 24 true))
      (Field.mk 1 31 true (List.replicate 32 true))
      (Field.mk 1 12 true (List.replicate 13 true))
      (Field.mk 0 6 true (List.replicate 7 true)),
    by decide, by decide, ?_, ?_, ?_, by decide⟩
  all_goals
    have h := (next_after_spec
      (CronExpr.mk
        (Field.mk 0 59 false ((List.range 60).map (fun i => decide (i % 5 = 0))))
        (Field.mk 0 23 true (List.replicate 24 true))
        (Field.mk 1 31 true (List.replicate 32 true))
        (Field.mk 1 12 true (List.replicate 13 true))
        (Field.mk 0 6 true (List.replicate 7 true)))
      (DateTimeL.mk 1767261690)).2 (DateTimeL.mk 1767261900) (by decide)
  exacts [h.1, h.2.1, h.2.2]

theorem isPrefixOf_self : ∀ l : Str, l.isPrefixOf l = true := by
  intro l
  induction l with
  | nil => rfl
  | cons c t ih => simp [List.isPrefixOf, ih]

theorem replaceAllFuel_nil (pat rep : Str) :
    ∀ f, replaceAllFuel pat rep f [] = [] := by
  intro f
  cases f <;> rfl

/-- Replacing a pattern inside exactly that pattern yields the
replacement. -/
theorem replaceAll_self (pat rep : Str) (h : pat ≠ []) :
    replaceAll pat pat rep = rep := by
  unfold replaceAll
  match pat, h with
  | p :: ps, _ =>
      show replaceAllFuel (p :: ps) rep (ps.length + 1) (p :: ps) = rep
      simp only [replaceAllFuel]
      rw [if_pos (isPrefixOf_self _)]
      have hd : (p :: ps).drop (p :: ps).length = [] := List.drop_length _
      rw [hd, replaceAllFuel_nil]
      exact List.append_nil rep

/-- With no triple newline present, the collapse loop is the
identity. -/
theorem collapse_of_no_triple (s : Str)
    (h : containsSubstr s (S ("\n\n\n")) = false) :
    collapse_newlines s = s := by
  unfold collapse_newlines
  cases hl : s.length with
  | zero => rfl
  | succ n => simp only [collapseNewlinesFuel, h, Bool.false_eq_true, if_false]

theorem findSub_append_self (p : Char) (ps : Str) :
    ∀ c : Str, (∀ ch ∈ c, ch ≠ p) →
      findSub (c ++ (p :: ps)) (p :: ps) = some (c, []) := by
  intro c
  induction c with
  | nil =>
      intro _
      simp only [List.nil_append, findSub, isPrefixOf_self, if_true]
      rw [List.drop_length]
  | cons ch c2 ih =>
      intro h
      have hch : ch ≠ p := h ch (List.mem_cons_self _ _)
      have hpre : (p :: ps).isPrefixOf (ch :: (c2 ++ (p :: ps))) = false := by
        simp [List.isPrefixOf, beq_eq_false_iff_ne.mpr (Ne.symm hch)]
      show findSub ((ch :: c2) ++ (p :: ps)) (p :: ps) = some (ch :: c2, [])
      rw [List.cons_append]
      unfold findSub
      rw [hpre]
      simp only [Bool.false_eq_true, if_false]
      rw [ih (fun x hx => h x (List.mem_cons_of_mem _ hx))]
      rfl

theorem findSub_nil_of_ne (p : Char) (ps : Str) :
    findSub [] (p :: ps) = none := by
  simp [findSub, List.isPrefixOf]

theorem extract_code_blocks_fuel_nil (blocks : List Str) :
    ∀ f, extract_code_blocks_fuel f [] blocks = ([], blocks) := by
  intro f
  cases f <;> rfl

theorem extract_inline_codes_fuel_nil (codes : List Str) :
    ∀ f, extract_inline_codes_fuel f [] codes = ([], codes) := by
  intro f
  cases f <;> rfl

theorem extract_code_blocks_fenced_fuel (c : Str) (hc : ∀ ch ∈ c, ch ≠ btick)
    (f : Nat) :
    extract_code_blocks_fuel (f + 1) (S ("```\x0a") ++ c ++ S ("```")) [] =
      (nulc :: (S ("CODEBLOCK") ++ natToStr 0) ++ [nulc], [c]) := by
  have hfind1 : findSub (S ("```\x0a") ++ c ++ S ("```")) (S ("```")) =
      some ([], '\n' :: (c ++ S ("```"))) := by
    have hshape : S ("```\x0a") ++ c ++ S ("```") =
        S ("```") ++ ('\n' :: (c ++ S ("```"))) := by
      simp [S]
    rw [hshape]
    unfold findSub
    rw [if_pos]
    · rfl
    · show (S ("```")).isPrefixOf (S ("```") ++ ('\n' :: (c ++ S ("```")))) = true
      simp [S, List.isPrefixOf]
  have hdrop : ('\n' :: (c ++ S ("```"))).dropWhile
      (fun b => b.isAlphanum || decide (b = '_')) = '\n' :: (c ++ S ("```")) := by
    rw [List.dropWhile_cons]
    simp
  have hfind2 : findSub (c ++ S ("```")) (S ("```")) = some (c, []) :=
    findSub_append_self btick (S ("``")) c hc
  simp only [extract_code_blocks_fuel, hfind1, hdrop, hfind2,
    extract_code_blocks_fuel_nil]
  rfl

/-- Extraction of a single fenced code block (backtick-free body). -/
theorem extract_code_blocks_fenced (c : Str) (hc : ∀ ch ∈ c, ch ≠ btick) :
    extract_code_blocks (S ("```\x0a") ++ c ++ S ("```")) =
      (nulc :: (S ("CODEBLOCK") ++ natToStr 0) ++ [nulc], [c]) := by
  have hlen : (S ("```\x0a") ++ c ++ S ("```")).length = c.length + 7 := by
    simp [S]
  unfold extract_code_blocks
  rw [hlen]
  exact extract_code_blocks_fenced_fuel c hc (c.length + 6)

theorem splitOnce_append_self (p : Char) :
    ∀ c : Str, (∀ ch ∈ c, ch ≠ p) → splitOnce (c ++ [p]) p = some (c, []) := by
  intro c
  induction c with
  | nil => simp [splitOnce]
  | cons ch c2 ih =>
      intro h
      have hch : ch ≠ p := h ch (List.mem_cons_self _ _)
      show splitOnce (ch :: (c2 ++ [p])) p = some (ch :: c2, [])
      unfold splitOnce
      rw [if_neg hch, ih (fun x hx => h x (List.mem_cons_of_mem _ hx))]

theorem extract_inline_codes_span_fuel (c : Str) (hc : ∀ ch ∈ c, ch ≠ btick)
    (f : Nat) :
    extract_inline_codes_fuel (f + 1) (btick :: c ++ [btick]) [] =
      (nulc :: (S ("INLINECODE") ++ natToStr 0) ++ [nulc], [c]) := by
  have hs1 : splitOnce (btick :: c ++ [btick]) btick =
      some ([], c ++ [btick]) := by
    show splitOnce (btick :: (c ++ [btick])) btick = some ([], c ++ [btick])
    simp [splitOnce]
  have hs2 : splitOnce (c ++ [btick]) btick = some (c, []) :=
    splitOnce_append_self btick c hc
  simp only [extract_inline_codes_fuel, hs1, hs2, extract_inline_codes_fuel_nil]
  rfl

/-- Extraction of a single inline code span (backtick-free body). -/
theorem extract_inline_codes_span (c : Str) (hc : ∀ ch ∈ c, ch ≠ btick) :
    extract_inline_codes (btick :: c ++ [btick]) =
      (nulc :: (S ("INLINECODE") ++ natToStr 0) ++ [nulc], [c]) := by
  have hlen : (btick :: c ++ [btick]).length = c.length + 2 := by simp
  unfold extract_inline_codes
  rw [hlen]
  exact extract_inline_codes_span_fuel c hc (c.length + 1)

theorem ticks3_isPrefixOf_cons (ch : Char) (rest : Str) (hch : ch ≠ btick) :
    (S ("```")).isPrefixOf (ch :: rest) = false := by
  show (btick :: S ("``")).isPrefixOf (ch :: rest) = false
  simp [List.isPrefixOf, beq_eq_false_iff_ne.mpr (Ne.symm hch)]

theorem ticks2_isPrefixOf_cons (ch : Char) (rest : Str) (hch : ch ≠ btick) :
    (S ("``")).isPrefixOf (ch :: rest) = false := by
  show (btick :: S ("`")).isPrefixOf (ch :: rest) = false
  simp [List.isPrefixOf, beq_eq_false_iff_ne.mpr (Ne.symm hch)]

theorem findSub_ticks_tail_none :
    ∀ c : Str, (∀ ch ∈ c, ch ≠ btick) →
      findSub (c ++ [btick]) (S ("```")) = none := by
  intro c
  induction c with
  | nil => intro _; decide
  | cons ch c2 ih =>
      intro h
      have hch : ch ≠ btick := h ch (List.mem_cons_self _ _)
      have hih := ih (fun x hx => h x (List.mem_cons_of_mem _ hx))
      show findSub (ch :: (c2 ++ [btick])) (S ("```")) = none
      rw [findSub]
      simp [ticks3_isPrefixOf_cons ch _ hch, hih]

theorem findSub_ticks_span_none (c : Str) (hc : ∀ ch ∈ c, ch ≠ btick) :
    findSub (btick :: c ++ [btick]) (S ("```")) = none := by
  have hpre : (S ("```")).isPrefixOf (btick :: (c ++ [btick])) = false := by
    show (btick :: S ("``")).isPrefixOf (btick :: (c ++ [btick])) = false
    simp only [List.isPrefixOf, beq_self_eq_true, Bool.true_and]
    cases c with
    | nil => decide
    | cons ch c2 =>
        show (S ("``")).isPrefixOf (ch :: (c2 ++ [btick])) = false
        exact ticks2_isPrefixOf_cons ch _ (hc ch (List.mem_cons_self _ _))
  show findSub (btick :: (c ++ [btick])) (S ("```")) = none
  rw [findSub]
  simp [hpre, findSub_ticks_tail_none c hc]

theorem extract_code_blocks_of_none (s : Str)
    (h : findSub s (S ("```")) = none) : extract_code_blocks s = (s, []) := by
  unfold extract_code_blocks
  cases hl : s.length with
  | zero => rfl
  | succ n => simp only [extract_code_blocks_fuel, h]

/-- C9 counterexample: `convert_markdown_to_html` is not idempotent on
its own outputs: `**x**` converts to `<b>x</b>`, and converting that
again HTML-escapes the emitted tags. -/
theorem convert_markdown_not_idempotent :
    convert_markdown_to_html (S ("**x**")) = S ("<b>x</b>") ∧
    convert_markdown_to_html (convert_markdown_to_html (S ("**x**"))) ≠
      convert_markdown_to_html (S ("**x**")) := by
  decide

/-- C9 (amended): the conversion is a deterministic pure function and
is idempotent exactly on its fixed points (plain text it leaves
unchanged); the contents of fenced and inline code blocks are never
touched by the emphasis rules, only HTML-escaped and wrapped in
`<pre>` / `<code>`. -/
theorem convert_markdown_spec :
    (∀ x y : Str, x = y →
      convert_markdown_to_html x = convert_markdown_to_html y) ∧
    (∀ x : Str, convert_markdown_to_html x = x →
      convert_markdown_to_html (convert_markdown_to_html x) =
        convert_markdown_to_html x) ∧
    (∀ c : Str, (∀ ch ∈ c, ch ≠ btick) →
      containsSubstr (S ("<pre>") ++ escape_html c ++ S ("</pre>"))
        (S ("\x0a\x0a\x0a")) = false →
      convert_markdown_to_html (S ("```\x0a") ++ c ++ S ("```")) =
        S ("<pre>") ++ escape_html c ++ S ("</pre>")) ∧
    (∀ c : Str, (∀ ch ∈ c, ch ≠ btick) →
      containsSubstr (S ("<code>") ++ escape_html c ++ S ("</code>"))
        (S ("\x0a\x0a\x0a")) = false →
      convert_markdown_to_html (btick :: c ++ [btick]) =
        S ("<code>") ++ escape_html c ++ S ("</code>")) := by
  refine ⟨?_, ?_, ?_, ?_⟩
  · intro x y h; rw [h]
  · intro x h; rw [h, h]
  · intro c hc hno
    have hex1 := extract_code_blocks_fenced c hc
    have hex2 : extract_inline_codes
        (nulc :: (S ("CODEBLOCK") ++ natToStr 0) ++ [nulc]) =
        (nulc :: (S ("CODEBLOCK") ++ natToStr 0) ++ [nulc], []) := by decide
    have hmid : convert_text_passes
        (nulc :: (S ("CODEBLOCK") ++ natToStr 0) ++ [nulc]) =
        nulc :: (S ("CODEBLOCK") ++ natToStr 0) ++ [nulc] := by decide
    unfold convert_markdown_to_html
    rw [hex1]
    simp only [hex2, hmid]
    simp only [restoreLoop]
    rw [replaceAll_self _ _ (by decide)]
    exact collapse_of_no_triple _ hno
  · intro c hc hno
    have hcb : extract_code_blocks (btick :: c ++ [btick]) =
        (btick :: c ++ [btick], []) :=
      extract_code_blocks_of_none _ (findSub_ticks_span_none c hc)
    have hex2 := extract_inline_codes_span c hc
    have hmid : convert_text_passes
        (nulc :: (S ("INLINECODE") ++ natToStr 0) ++ [nulc]) =
        nulc :: (S ("INLINECODE") ++ natToStr 0) ++ [nulc] := by decide
    unfold convert_markdown_to_html
    rw [hcb]
    simp only [hex2, hmid]
    simp only [restoreLoop]
    rw [replaceAll_self _ _ (by decide)]
    exact collapse_of_no_triple _ hno

/-- Witness for C9 (amended) at concrete inputs: determinism, a fixed
point, a fenced block, and an inline span. -/
theorem convert_markdown_spec_witness :
    convert_markdown_to_html (S ("plain")) = S ("plain") ∧
    convert_markdown_to_html (convert_markdown_to_html (S ("plain"))) =
      convert_markdown_to_html (S ("plain")) ∧
    convert_markdown_to_html (S ("```\x0a") ++ S ("x<y") ++ S ("```")) =
      S ("<pre>") ++ escape_html (S ("x<y")) ++ S ("</pre>") ∧
    convert_markdown_to_html (btick :: S ("a&b") ++ [btick]) =
      S ("<code>") ++ escape_html (S ("a&b")) ++ S ("</code>") := by
  refine ⟨by decide, ?_, ?_, ?_⟩
  · exact convert_markdown_spec.2.1 (S ("plain")) (by decide)
  · exact convert_markdown_spec.2.2.1 (S ("x<y")) (by decide) (by decide)
  · exact convert_markdown_spec.2.2.2 (S ("a&b")) (by decide) (by decide)

theorem recreate_progress_no_edit (st : StreamingState) (now : Int) :
    ∀ op ∈ (recreate_progress st now).2, ∀ m h, op ≠ MsgOp.editHtml m h := by
  unfold recreate_progress
  cases hs : st.start_time with
  | none => intro op hop; cases hop
  | some start =>
      cases hp : st.progress_message with
      | none =>
          intro op hop m h
          simp at hop
          subst hop
          simp
      | some old =>
          intro op hop m h
          simp at hop
          rcases hop with rfl | rfl <;> simp

theorem recreate_progress_fields (st : StreamingState) (now : Int) :
    (recreate_progress st now).1.text_messages = st.text_messages ∧
    (recreate_progress st now).1.last_content = st.last_content ∧
    (recreate_progress st now).1.last_edit_times = st.last_edit_times ∧
    (recreate_progress st now).1.chat_id = st.chat_id := by
  unfold recreate_progress
  cases hs : st.start_time <;> simp

theorem handle_text_stream_edit (cfg : Config) (st : StreamingState)
    (seg : Nat) (content : Str) (now : Int) :
    ∀ op ∈ (handle_text_stream cfg st seg content now).2, ∀ m h,
      op = MsgOp.editHtml m h →
      h = convert_markdown_to_html
        (truncate_with_ellipsis content cfg.telegram_safe_limit) := by
  unfold handle_text_stream
  by_cases hnew : (alistGet st.text_messages seg).isNone = true
  · rw [if_pos hnew]
    intro op hop m h heq
    simp only [List.mem_cons] at hop
    rcases hop with rfl | hop
    · cases heq
    · exact absurd heq (recreate_progress_no_edit _ _ _ hop m h)
  · rw [if_neg hnew]
    by_cases hth : (match alistGet st.last_edit_times seg with
        | some last => decide (now - last ≤ cfg.streaming_throttle)
        | none => false) = true
    · rw [if_pos hth]
      intro op hop
      cases hop
    · rw [if_neg hth]
      by_cases hsame : alistGet st.last_content seg =
          some (convert_markdown_to_html
            (truncate_with_ellipsis content cfg.telegram_safe_limit))
      · rw [if_pos hsame]
        intro op hop
        cases hop
      · rw [if_neg hsame]
        intro op hop m h heq
        simp only [List.mem_singleton] at hop
        subst hop
        cases heq
        rfl

theorem handle_segment_end_edit (cfg : Config) (st : StreamingState)
    (seg : Nat) (content : Str) (now : Int) :
    ∀ op ∈ (handle_segment_end cfg st seg content now).2, ∀ m h,
      op = MsgOp.editHtml m h → h.length ≤ cfg.telegram_message_limit := by
  unfold handle_segment_end
  by_cases hempty : content = []
  · rw [if_pos hempty]
    intro op hop
    cases hop
  · rw [if_neg hempty]
    by_cases hnew : (alistGet st.text_messages seg).isNone = true
    · rw [if_pos hnew]
      intro op hop m h heq
      simp only [List.mem_cons] at hop
      rcases hop with rfl | hop
      · cases heq
      · exact absurd heq (recreate_progress_no_edit _ _ _ hop m h)
    · rw [if_neg hnew]
      by_cases hsame : alistGet st.last_content seg =
          some (convert_markdown_to_html content)
      · rw [if_pos hsame]
        intro op hop
        cases hop
      · rw [if_neg hsame]
        by_cases hlim : (convert_markdown_to_html content).length ≤
            cfg.telegram_message_limit
        · rw [if_pos hlim]
          intro op hop m h heq
          simp only [List.mem_singleton] at hop
          subst hop
          cases heq
          exact hlim
        · rw [if_neg hlim]
          intro op hop m h heq
          cases hop with
          | head => cases heq
          | tail _ hop =>
              rcases List.mem_append.mp hop with hop2 | hop2
              · obtain ⟨chunk, _, hck⟩ := List.mem_map.mp hop2
                rw [← hck] at heq
                cases heq
              · exact absurd heq (recreate_progress_no_edit _ _ _ hop2 m h)

theorem handle_segment_end_overlimit (cfg : Config) (st : StreamingState)
    (seg : Nat) (content : Str) (now : Int) (m0 : Nat)
    (hempty : content ≠ [])
    (hmsg : alistGet st.text_messages seg = some m0)
    (hsame : alistGet st.last_content seg ≠
      some (convert_markdown_to_html content))
    (hlim : cfg.telegram_message_limit <
      (convert_markdown_to_html content).length) :
    MsgOp.deleteMessage m0 ∈ (handle_segment_end cfg st seg content now).2 ∧
    ∀ chunk ∈ split_text content cfg.telegram_safe_limit,
      MsgOp.sendHtml st.chat_id (convert_markdown_to_html chunk) ∈
        (handle_segment_end cfg st seg content now).2 := by
  unfold handle_segment_end
  rw [if_neg hempty]
  rw [if_neg (by simp [hmsg])]
  rw [if_neg hsame]
  rw [if_neg (by omega)]
  have hget : (alistGet st.text_messages seg).getD 0 = m0 := by
    rw [hmsg]; rfl
  constructor
  · rw [hget]
    exact List.mem_cons_self _ _
  · intro chunk hchunk
    refine List.mem_cons_of_mem _ ?_
    refine List.mem_append.mpr (Or.inl ?_)
    exact List.mem_map.mpr ⟨chunk, hchunk, rfl⟩

/-- C8 counterexample: with `safe_limit = 10 < message_limit = 40`, two
`Text` events on the same segment (the second past the throttle window,
made of quote characters) make the state machine issue an `edit_html`
whose HTML is longer than `telegram_message_limit`: HTML-escaping after
truncation expands the text. -/
theorem streaming_edit_exceeds_limit_counterexample :
    (Config.mk 40 10 1 30 [] [] true true).telegram_safe_limit <
      (Config.mk 40 10 1 30 [] [] true true).telegram_message_limit ∧
    ((on_status_at (Config.mk 40 10 1 30 [] [] true true)
        (on_status_at (Config.mk 40 10 1 30 [] [] true true)
          (StreamingState.new 1) StatusType.text (S ("hello world!"))
          (some 0) 0 (S ("t"))).1
        StatusType.text (S ("\x22\x22\x22\x22\x22\x22\x22\x22\x22\x22\x22\x22"))
        (some 0) 10 (S ("t"))).2.any
      (opIsOverlongEdit
        (Config.mk 40 10 1 30 [] [] true true).telegram_message_limit)) =
      true := by
  constructor
  · decide
  · decide

/-- C8 (amended): in the `SegmentEnd` path every `edit_html` carries
HTML of length at most `telegram_message_limit`, and an over-limit
rendering is never edited in place: the original message is deleted and
the content re-sent as `safe_limit`-sized chunks.  In the `Text` path
the content is truncated to `telegram_safe_limit` before markdown→HTML
conversion, but the converted HTML of such an edit can exceed
`telegram_message_limit` (see the counterexample), so the original
blanket bound does not hold. -/
theorem streaming_limits_spec (cfg : Config) (st : StreamingState)
    (content : Str) (seg : Nat) (now : Int) (w : Str) :
    (∀ op ∈ (on_status_at cfg st StatusType.segmentEnd content (some seg) now w).2,
      ∀ m h, op = MsgOp.editHtml m h → h.length ≤ cfg.telegram_message_limit) ∧
    (∀ op ∈ (on_status_at cfg st StatusType.text content (some seg) now w).2,
      ∀ m h, op = MsgOp.editHtml m h →
        h = convert_markdown_to_html
          (truncate_with_ellipsis content cfg.telegram_safe_limit)) ∧
    (∀ m0, content ≠ [] →
      alistGet st.text_messages seg = some m0 →
      alistGet st.last_content seg ≠
        some (convert_markdown_to_html content) →
      cfg.telegram_message_limit < (convert_markdown_to_html content).length →
      MsgOp.deleteMessage m0 ∈
        (on_status_at cfg st StatusType.segmentEnd content (some seg) now w).2 ∧
      ∀ chunk ∈ split_text content cfg.telegram_safe_limit,
        MsgOp.sendHtml st.chat_id (convert_markdown_to_html chunk) ∈
          (on_status_at cfg st StatusType.segmentEnd content (some seg) now w).2) := by
  have hinitFacts : ∀ stI opsI,
      (if st.start_time.isNone then
        recreate_progress
          { st with start_time := some now, start_wallclock := w } now
      else (st, [])) = (stI, opsI) →
      stI.text_messages = st.text_messages ∧
      stI.last_content = st.last_content ∧
      stI.chat_id = st.chat_id ∧
      (∀ op ∈ opsI, ∀ m h, op ≠ MsgOp.editHtml m h) := by
    intro stI opsI hI
    by_cases hs : st.start_time.isNone = true
    · rw [if_pos hs] at hI
      have hf := recreate_progress_fields
        { st with start_time := some now, start_wallclock := w } now
      have hne := recreate_progress_no_edit
        { st with start_time := some now, start_wallclock := w } now
      rw [hI] at hf hne
      exact ⟨hf.1, hf.2.1, hf.2.2.2, hne⟩
    · rw [if_neg hs] at hI
      cases hI
      exact ⟨rfl, rfl, rfl, fun op hop => by cases hop⟩
  obtain ⟨stI, opsI, hI⟩ :
      ∃ stI opsI, (if st.start_time.isNone then
        recreate_progress
          { st with start_time := some now, start_wallclock := w } now
      else (st, [])) = (stI, opsI) := ⟨_, _, rfl⟩
  obtain ⟨hItm, hIlc, hIchat, hInoedit⟩ := hinitFacts stI opsI hI
  have hseg : (on_status_at cfg st StatusType.segmentEnd content (some seg) now w) =
      ((handle_segment_end cfg stI seg content now).1,
        opsI ++ (handle_segment_end cfg stI seg content now).2) := by
    unfold on_status_at
    rw [hI]
  have htxt : (on_status_at cfg st StatusType.text content (some seg) now w) =
      ((handle_text_stream cfg stI seg content now).1,
        opsI ++ (handle_text_stream cfg stI seg content now).2) := by
    unfold on_status_at
    rw [hI]
  refine ⟨?_, ?_, ?_⟩
  · intro op hop m h heq
    rw [hseg] at hop
    rcases List.mem_append.mp hop with hop2 | hop2
    · exact absurd heq (hInoedit op hop2 m h)
    · exact handle_segment_end_edit cfg stI seg content now op hop2 m h heq
  · intro op hop m h heq
    rw [htxt] at hop
    rcases List.mem_append.mp hop with hop2 | hop2
    · exact absurd heq (hInoedit op hop2 m h)
    · exact handle_text_stream_edit cfg stI seg content now op hop2 m h heq
  · intro m0 hempty hmsg hsame hlim
    have hover := handle_segment_end_overlimit cfg stI seg content now m0
      hempty (by rw [hItm]; exact hmsg) (by rw [hIlc]; exact hsame) hlim
    rw [hseg]
    constructor
    · exact List.mem_append.mpr (Or.inr hover.1)
    · intro chunk hchunk
      refine List.mem_append.mpr (Or.inr ?_)
      rw [← hIchat]
      exact hover.2 chunk hchunk

/-- Witness for C8 (amended): a short `SegmentEnd` edit obeys the
limit, and a post-throttle `Text` edit carries exactly the converted
truncated content. -/
theorem streaming_limits_spec_witness :
    (S ("hi")).length ≤ (Config.mk 40 10 1 30 [] [] true true).telegram_message_limit ∧
    (S ("&quot;&quot;&quot;&quot;&quot;&quot;&quot;&quot;&quot;&quot;...")) =
      convert_markdown_to_html
        (truncate_with_ellipsis
          (S ("\x22\x22\x22\x22\x22\x22\x22\x22\x22\x22\x22\x22"))
          (Config.mk 40 10 1 30 [] [] true true).telegram_safe_limit) := by
  constructor
  · exact (streaming_limits_spec (Config.mk 40 10 1 30 [] [] true true)
      (on_status_at (Config.mk 40 10 1 30 [] [] true true)
        (StreamingState.new 1) StatusType.text (S ("hello world!"))
        (some 0) 0 (S ("t"))).1
      (S ("hi")) 0 10 (S ("t"))).1
      (MsgOp.editHtml 2 (S ("hi"))) (by decide) 2 (S ("hi")) rfl
  · exact ((streaming_limits_spec (Config.mk 40 10 1 30 [] [] true true)
      (on_status_at (Config.mk 40 10 1 30 [] [] true true)
        (StreamingState.new 1) StatusType.text (S ("hello world!"))
        (some 0) 0 (S ("t"))).1
      (S ("\x22\x22\x22\x22\x22\x22\x22\x22\x22\x22\x22\x22")) 0 10 (S ("t"))).2.1
      (MsgOp.editHtml 2
        (S ("&quot;&quot;&quot;&quot;&quot;&quot;&quot;&quot;&quot;&quot;...")))
      (by decide) 2
      (S ("&quot;&quot;&quot;&quot;&quot;&quot;&quot;&quot;&quot;&quot;...")) rfl)

theorem eqIgnoreAsciiCase_length (a b : Str)
    (h : eqIgnoreAsciiCase a b = true) : a.length = b.length := by
  unfold eqIgnoreAsciiCase toLowerStr at h
  have h2 := congrArg List.length (eq_of_beq h)
  simpa using h2

theorem eqIgnoreAsciiCase_ne_length (a b : Str) (h : a.length ≠ b.length) :
    eqIgnoreAsciiCase a b = false := by
  cases he : eqIgnoreAsciiCase a b
  · rfl
  · exact absurd (eqIgnoreAsciiCase_length a b he) h

theorem is_ask_user_tool_length (tn : Str) (h : is_ask_user_tool tn = true) :
    13 ≤ tn.length := by
  unfold is_ask_user_tool at h
  rw [Bool.or_eq_true] at h
  rcases h with h1 | h2
  · have hp : S ("mcp__ask-user") <+: tn := List.isPrefixOf_iff_prefix.mp h1
    have h3 := hp.length_le
    have h4 : (S ("mcp__ask-user")).length = 13 := rfl
    omega
  · have h3 := eq_of_beq h2
    subst h3
    decide

theorem ask_not_file_tool (tn : Str) (h : is_ask_user_tool tn = true) :
    eqIgnoreAsciiCase tn (S ("Bash")) = false ∧
    eqIgnoreAsciiCase tn (S ("Read")) = false ∧
    eqIgnoreAsciiCase tn (S ("Write")) = false ∧
    eqIgnoreAsciiCase tn (S ("Edit")) = false := by
  have hl := is_ask_user_tool_length tn h
  refine ⟨?_, ?_, ?_, ?_⟩ <;>
    (apply eqIgnoreAsciiCase_ne_length;
     intro hlen; rw [hlen] at hl; revert hl; decide)

theorem check_pending_aux_spec (cfg : Config) (chat : Int)
    (fs : List (Str × Option Json)) :
    (check_pending_aux cfg chat fs).1 = fs.map (fun e =>
        if askEligible chat e then
          (e.1, e.2.map
            (fun j => Json.setKey j (S ("status")) (Json.str (S ("sent")))))
        else e) ∧
    (check_pending_aux cfg chat fs).2.1 =
      (fs.filter (askEligible chat)).filterMap
        (fun e => e.2.map (askKeyboardOp cfg chat)) ∧
    (check_pending_aux cfg chat fs).2.2 =
      !(fs.filter (askEligible chat)).isEmpty := by
  induction fs with
  | nil => exact ⟨rfl, rfl, rfl⟩
  | cons e rest ih =>
      obtain ⟨hm, ho, hs⟩ := ih
      by_cases he : askEligible chat e = true
      · obtain ⟨v, hv⟩ : ∃ v, e.2 = some v := by
          cases h2 : e.2 with
          | none =>
              exfalso
              unfold askEligible at he
              rw [h2] at he
              simp at he
          | some v => exact ⟨v, rfl⟩
        refine ⟨?_, ?_, ?_⟩
        · simp only [check_pending_aux, hv, he, if_true, List.map_cons, hm,
            Option.map_some']
        · simp only [check_pending_aux, hv, he, if_true, ho,
            List.filter_cons_of_pos, List.filterMap_cons, Option.map_some']
        · simp only [check_pending_aux, hv, he, if_true,
            List.filter_cons_of_pos, List.isEmpty_cons, Bool.not_false]
      · have he2 : askEligible chat e = false := by
          cases h2 : askEligible chat e
          · rfl
          · exact absurd h2 he
        refine ⟨?_, ?_, ?_⟩
        · simp only [check_pending_aux, he2, Bool.false_eq_true, if_false,
            List.map_cons, hm]
        · simp only [check_pending_aux, he2, Bool.false_eq_true, if_false, ho,
            List.filter_cons]
        · simp only [check_pending_aux, he2, Bool.false_eq_true, if_false, hs,
            List.filter_cons]

theorem ask_user_retry_sent (cfg : Config) (chat : Int)
    (fs : List (Str × Option Json)) (k : Nat)
    (hsent : (check_pending_ask_user_requests cfg chat fs).2.2 = true) :
    ask_user_retry cfg chat (k + 1) fs =
      ((check_pending_ask_user_requests cfg chat fs).1,
        (check_pending_ask_user_requests cfg chat fs).2.1, true) := by
  simp only [ask_user_retry, hsent, if_true]

theorem handle_tool_use_ask (cfg : Config) (allow : Str → Bool)
    (st : PipelineState) (fs : List (Str × Option Json)) (block : Json)
    (now : Int) (w : Str)
    (hask : is_ask_user_tool (toolNameOf block) = true)
    (hseg : st.current_segment_text = []) :
    handle_tool_use cfg allow st fs block now w =
      ({ st with
          ask_user_triggered := true
          ask_user_buttons_sent := st.ask_user_buttons_sent ||
            (ask_user_retry cfg st.stream.chat_id 3 fs).2.2 },
        (ask_user_retry cfg st.stream.chat_id 3 fs).1,
        (ask_user_retry cfg st.stream.chat_id 3 fs).2.1.map Act.msg ++
          [Act.cancelModel],
        Except.ok ()) := by
  obtain ⟨hB, hR, hW, hE⟩ := ask_not_file_tool _ hask
  simp only [handle_tool_use, hB, hR, hW, hE, hask, hseg, Bool.false_and,
    Bool.and_false, Bool.false_eq_true, if_false, List.any_cons, List.any_nil,
    Bool.or_false, Bool.false_or, beq_self_eq_true, Bool.not_true, if_true,
    List.nil_append]

/-- C6: when `handle_tool_use` sees an ask-user tool block (name starts
with `mcp__ask-user` or equals `AskUserQuestion`, current segment
already flushed) and the `/tmp` listing filtered by eligibility (name
`ask-user-*.json`, status `pending`, matching chat id as number or
numeric string, non-empty request id and options) is exactly one file,
then the call returns `Ok`, the recorded actions are exactly one inline
keyboard send `❓ <escaped question>` with one truncated-label button
per option followed by exactly one model cancellation, the file is
rewritten with status `sent`, and `finish` afterwards reports
`waiting_for_user = true` with text `[Waiting for user selection]`. -/
theorem ask_user_flow_spec (cfg : Config) (allow : Str → Bool)
    (st : PipelineState) (fs : List (Str × Option Json)) (block : Json)
    (now now2 : Int) (w w2 : Str) (nm : Str) (v : Json)
    (hask : is_ask_user_tool (toolNameOf block) = true)
    (hseg : st.current_segment_text = [])
    (hfs : fs.filter (askEligible st.stream.chat_id) = [(nm, some v)]) :
    (handle_tool_use cfg allow st fs block now w).2.2.2 = Except.ok () ∧
    (handle_tool_use cfg allow st fs block now w).2.2.1 =
      [Act.msg (MsgOp.sendInlineKeyboard st.stream.chat_id
          (S ("❓ ") ++ escape_html (askQuestion v))
          (InlineKeyboard.one_per_row (askRequestId v) (askOptions v)
            cfg.button_label_max_length)),
        Act.cancelModel] ∧
    (handle_tool_use cfg allow st fs block now w).2.1 = fs.map (fun e =>
      if askEligible st.stream.chat_id e then
        (e.1, e.2.map
          (fun j => Json.setKey j (S ("status")) (Json.str (S ("sent")))))
      else e) ∧
    (finish cfg (handle_tool_use cfg allow st fs block now w).1 now2 w2).2.2 =
      { text := S ("[Waiting for user selection]"), waiting_for_user := true } := by
  have hmain := handle_tool_use_ask cfg allow st fs block now w hask hseg
  have hspec := check_pending_aux_spec cfg st.stream.chat_id fs
  have hsent :
      (check_pending_ask_user_requests cfg st.stream.chat_id fs).2.2 = true := by
    show (check_pending_aux cfg st.stream.chat_id fs).2.2 = true
    rw [hspec.2.2, hfs]
    rfl
  have hretry := ask_user_retry_sent cfg st.stream.chat_id fs 2 hsent
  have h3 : (3 : Nat) = 2 + 1 := rfl
  rw [h3] at hmain
  simp only [hretry, Bool.or_true] at hmain
  have hops :
      (check_pending_ask_user_requests cfg st.stream.chat_id fs).2.1 =
        [askKeyboardOp cfg st.stream.chat_id v] := by
    show (check_pending_aux cfg st.stream.chat_id fs).2.1 = _
    rw [hspec.2.1, hfs]
    rfl
  have hfs2 :
      (check_pending_ask_user_requests cfg st.stream.chat_id fs).1 =
        fs.map (fun e =>
          if askEligible st.stream.chat_id e then
            (e.1, e.2.map
              (fun j => Json.setKey j (S ("status")) (Json.str (S ("sent")))))
          else e) := hspec.1
  rw [hops, hfs2] at hmain
  refine ⟨?_, ?_, ?_, ?_⟩
  · rw [hmain]
  · rw [hmain]
    rfl
  · rw [hmain]
  · rw [hmain]
    simp [finish]

/-- Witness for C6: a concrete `AskUserQuestion` block, a fresh pipeline
in chat 1 and one pending two-option request file. -/
theorem ask_user_flow_spec_witness :
    (handle_tool_use cfgW (fun _ => false) pipeStW askFsW askBlockW 0
        (S ("t"))).2.2.2 = Except.ok () ∧
    (handle_tool_use cfgW (fun _ => false) pipeStW askFsW askBlockW 0
        (S ("t"))).2.2.1 =
      [Act.msg (MsgOp.sendInlineKeyboard pipeStW.stream.chat_id
          (S ("❓ ") ++ escape_html (askQuestion askFileW))
          (InlineKeyboard.one_per_row (askRequestId askFileW)
            (askOptions askFileW) cfgW.button_label_max_length)),
        Act.cancelModel] ∧
    (handle_tool_use cfgW (fun _ => false) pipeStW askFsW askBlockW 0
        (S ("t"))).2.1 = askFsW.map (fun e =>
      if askEligible pipeStW.stream.chat_id e then
        (e.1, e.2.map
          (fun j => Json.setKey j (S ("status")) (Json.str (S ("sent")))))
      else e) ∧
    (finish cfgW
        (handle_tool_use cfgW (fun _ => false) pipeStW askFsW askBlockW 0
          (S ("t"))).1 0 (S ("t"))).2.2 =
      { text := S ("[Waiting for user selection]"), waiting_for_user := true } :=
  ask_user_flow_spec cfgW (fun _ => false) pipeStW askFsW askBlockW 0 0
    (S ("t")) (S ("t")) (S ("ask-user-1.json")) askFileW (by decide) rfl rfl

/-- C10: for a `Read`, `Write` or `Edit` tool_use block whose input has
no string `file_path` key or whose `file_path` value is the empty
string, the path-policy check is skipped entirely: for every path
oracle `allow` the call returns `Ok`, no model cancellation is
recorded, and an ordinary tool-status message is dispatched. -/
theorem file_path_skip_spec (cfg : Config) (allow : Str → Bool)
    (st : PipelineState) (fs : List (Str × Option Json)) (block : Json)
    (now : Int) (w : Str)
    (hname : toolNameOf block = S ("Read") ∨ toolNameOf block = S ("Write") ∨
      toolNameOf block = S ("Edit"))
    (hfp : ((Json.get (toolInputOf block) (S ("file_path"))).bind
      Json.as_str).getD [] = [])
    (hseg : st.current_segment_text = []) :
    handle_tool_use cfg allow st fs block now w =
      ({ st with stream := (on_status_at cfg st.stream StatusType.tool
          (format_tool_status (toolNameOf block) (toolInputOf block))
          none now w).1 },
        fs,
        ((on_status_at cfg st.stream StatusType.tool
          (format_tool_status (toolNameOf block) (toolInputOf block))
          none now w).2).map Act.msg,
        Except.ok ()) ∧
    ∀ a ∈ (handle_tool_use cfg allow st fs block now w).2.2.1,
      a ≠ Act.cancelModel := by
  have hmain : handle_tool_use cfg allow st fs block now w =
      ({ st with stream := (on_status_at cfg st.stream StatusType.tool
          (format_tool_status (toolNameOf block) (toolInputOf block))
          none now w).1 },
        fs,
        ((on_status_at cfg st.stream StatusType.tool
          (format_tool_status (toolNameOf block) (toolInputOf block))
          none now w).2).map Act.msg,
        Except.ok ()) := by
    rcases hname with h | h | h
    · have a1 : eqIgnoreAsciiCase (S ("Read")) (S ("Bash")) = false := by decide
      have a2 : is_ask_user_tool (S ("Read")) = false := by decide
      simp only [handle_tool_use, h, hfp, hseg, a1, a2, Bool.false_and,
        Bool.and_false, Bool.not_true, beq_self_eq_true, Bool.false_eq_true,
        if_false, List.nil_append]
    · have a1 : eqIgnoreAsciiCase (S ("Write")) (S ("Bash")) = false := by decide
      have a2 : is_ask_user_tool (S ("Write")) = false := by decide
      simp only [handle_tool_use, h, hfp, hseg, a1, a2, Bool.false_and,
        Bool.and_false, Bool.not_true, beq_self_eq_true, Bool.false_eq_true,
        if_false, List.nil_append]
    · have a1 : eqIgnoreAsciiCase (S ("Edit")) (S ("Bash")) = false := by decide
      have a2 : is_ask_user_tool (S ("Edit")) = false := by decide
      simp only [handle_tool_use, h, hfp, hseg, a1, a2, Bool.false_and,
        Bool.and_false, Bool.not_true, beq_self_eq_true, Bool.false_eq_true,
        if_false, List.nil_append]
  refine ⟨hmain, ?_⟩
  rw [hmain]
  intro a ha
  obtain ⟨op, _, hop⟩ := List.mem_map.mp ha
  rw [← hop]
  intro hcon
  cases hcon

/-- Witness for C10: a `Read` block with an empty input object under a
deny-all path oracle. -/
theorem file_path_skip_spec_witness :
    handle_tool_use cfgW (fun _ => false) pipeStW [] readBlockW 0 (S ("t")) =
      ({ pipeStW with stream := (on_status_at cfgW pipeStW.stream
          StatusType.tool
          (format_tool_status (toolNameOf readBlockW) (toolInputOf readBlockW))
          none 0 (S ("t"))).1 },
        [],
        ((on_status_at cfgW pipeStW.stream StatusType.tool
          (format_tool_status (toolNameOf readBlockW) (toolInputOf readBlockW))
          none 0 (S ("t"))).2).map Act.msg,
        Except.ok ()) ∧
    ∀ a ∈ (handle_tool_use cfgW (fun _ => false) pipeStW [] readBlockW 0
        (S ("t"))).2.2.1, a ≠ Act.cancelModel :=
  file_path_skip_spec cfgW (fun _ => false) pipeStW [] readBlockW 0 (S ("t"))
    (Or.inl rfl) rfl rfl

end CTB
